import Mathlib

/-!
Verification of the A2UI protocol/data engine of the `moly` repository
(`moly-kit/src/a2ui/`): the JSON-Pointer addressed `DataModel`
(`data_model.rs`), the message processor (`processor.rs`), the SSE line
parser (`sse.rs`) and the first two steps of the JSON repair pipeline
(`strip_json_comments` / `fix_trailing_commas` in `processor.rs`).

Modelling conventions:
* `serde_json::Value` is embedded as the inductive `Json` below.  JSON
  number payloads are modelled as `Int`: no statement proved here depends
  on non-integral numeric values, and IEEE-754 semantics are out of scope.
* Rust `HashMap`/`serde_json::Map` values are embedded as association
  lists with replace-on-insert semantics; `HashSet<String>` as a
  duplicate-free `List String`.
* Rust string manipulation (`starts_with`, `split`, `trim`,
  `parse::<usize>`) is embedded by executable functions on the character
  list `String.data`, so that every definition evaluates inside the
  kernel; `char::is_whitespace` is modelled by `Char.isWhitespace`
  (the ASCII white-space subset relevant to JSON).
-/

namespace A2ui

/-- Embedding of `serde_json::Value` (objects as association lists). -/
inductive Json where
  | null : Json
  | bool (b : Bool) : Json
  | num (n : Int) : Json
  | str (s : String) : Json
  | arr (items : List Json) : Json
  | obj (fields : List (String × Json)) : Json
  deriving Repr

/-- Lookup in a string-keyed map (`serde_json::Map::get`, `HashMap::get`). -/
def mapFind {α : Type} : List (String × α) → String → Option α
  | [], _ => none
  | (k, v) :: rest, key => if k = key then some v else mapFind rest key

/-- Insert into a string-keyed map, replacing an existing entry
(`serde_json::Map::insert`, `HashMap::insert`). -/
def mapInsert {α : Type} : List (String × α) → String → α → List (String × α)
  | [], key, v => [(key, v)]
  | (k, w) :: rest, key, v =>
    if k = key then (key, v) :: rest else (k, w) :: mapInsert rest key v

/-- Remove a key from a string-keyed map (`Map::remove`, `HashMap::remove`). -/
def mapErase {α : Type} : List (String × α) → String → List (String × α)
  | [], _ => []
  | (k, w) :: rest, key => if k = key then rest else (k, w) :: mapErase rest key

/-- Lookup in a JSON object. -/
def objFind (m : List (String × Json)) (key : String) : Option Json :=
  mapFind m key

/-- Insert in a JSON object (replace if present). -/
def objInsert (m : List (String × Json)) (key : String) (v : Json) :
    List (String × Json) :=
  mapInsert m key v

/-- Remove a key from a JSON object. -/
def objErase (m : List (String × Json)) (key : String) : List (String × Json) :=
  mapErase m key

/-- Rust `str::starts_with`: prefix on the character sequence. -/
def strStartsWith (s p : String) : Bool :=
  p.data.isPrefixOf s.data

/-- Accumulating decimal-digit parser used by `parseUsize`. -/
def parseDigitsGo : List Char → Nat → Option Nat
  | [], acc => some acc
  | c :: cs, acc =>
    if c.isDigit then parseDigitsGo cs (acc * 10 + (c.toNat - '0'.toNat))
    else none

/-- Embedding of Rust `str::parse::<usize>`: optional leading `+`,
one or more decimal digits, value below `2 ^ 64`. -/
def parseUsize (s : String) : Option Nat :=
  match (match s.data with | '+' :: rest => rest | cs => cs) with
  | [] => none
  | cs =>
    match parseDigitsGo cs 0 with
    | some n => if n < 2 ^ 64 then some n else none
    | none => none

/-- Rust `str::split(sep)` on a character list (`"".split` gives `[""]`,
adjacent separators give empty pieces). -/
def splitChars (sep : Char) : List Char → List (List Char)
  | [] => [[]]
  | c :: cs =>
    if c = sep then [] :: splitChars sep cs
    else
      match splitChars sep cs with
      | g :: gs => (c :: g) :: gs
      | [] => [[c]]

/-- `DataModel::parse_pointer` (`data_model.rs`): `""` and `"/"` give no
segments, otherwise strip leading slashes and split on `/`.  The `~0`/`~1`
unescaping is a no-op in the source. -/
def parsePointer (path : String) : List String :=
  if path = "" ∨ path = "/" then []
  else (splitChars '/' (path.data.dropWhile (fun c => c = '/'))).map
    fun cs => String.mk cs

/-- `DataModel::get_by_pointer` (`data_model.rs`), recursion on the
segment list. -/
def getPtr : List String → Json → Option Json
  | [], doc => some doc
  | seg :: rest, doc =>
    match doc with
    | .obj m => (objFind m seg).bind (getPtr rest)
    | .arr a =>
      match parseUsize seg with
      | some i => a[i]?.bind (getPtr rest)
      | none => none
    | _ => none

/-- `DataModel::set_by_pointer` (`data_model.rs`).  Returns the success
flag together with the (possibly partially mutated) document: the Rust
code mutates intermediate nodes in place and can still return `false`
at the final step. -/
def setPtr (v : Json) : List String → Json → Bool × Json
  | [], _ => (true, v)
  | [seg], doc =>
    match doc with
    | .obj m => (true, .obj (objInsert m seg v))
    | .arr a =>
      match parseUsize seg with
      | some i =>
        if i < a.length then (true, .arr (a.set i v))
        else if i = a.length then (true, .arr (a ++ [v]))
        else (false, doc)
      | none => (false, doc)
    | _ => (false, doc)
  | seg :: next :: rest, doc =>
    let nextIsIdx := (parseUsize next).isSome
    match doc with
    | .obj m =>
      let child :=
        match objFind m seg with
        | some c => c
        | none => if nextIsIdx then Json.arr [] else Json.obj []
      let r := setPtr v (next :: rest) child
      (r.1, .obj (objInsert m seg r.2))
    | .arr a =>
      match parseUsize seg with
      | some i =>
        let a2 := if i < a.length then a
                  else a ++ List.replicate (i + 1 - a.length) Json.null
        let r := setPtr v (next :: rest) (a2.getD i Json.null)
        (r.1, .arr (a2.set i r.2))
      | none => (false, doc)
    | _ =>
      let child := if nextIsIdx then Json.arr [] else Json.obj []
      let r := setPtr v (next :: rest) child
      (r.1, .obj [(seg, r.2)])

/-- `DataModel::delete_by_pointer` (`data_model.rs`).  `none` models the
`false` return; all `false` paths of the source leave the document
untouched, so no document is returned in that case. -/
def delPtr : List String → Json → Option Json
  | [], _ => some (.obj [])
  | [last], doc =>
    match doc with
    | .obj m => if (objFind m last).isSome then some (.obj (objErase m last)) else none
    | .arr a =>
      match parseUsize last with
      | some i => if i < a.length then some (.arr (a.eraseIdx i)) else none
      | none => none
    | _ => none
  | seg :: next :: rest, doc =>
    match doc with
    | .obj m =>
      (objFind m seg).bind fun c =>
        (delPtr (next :: rest) c).map fun c2 => .obj (objInsert m seg c2)
    | .arr a =>
      match parseUsize seg with
      | some i =>
        a[i]?.bind fun c =>
          (delPtr (next :: rest) c).map fun c2 => .arr (a.set i c2)
      | none => none
    | _ => none

/-- Insert into the dirty-path set (`HashSet<String>::insert`). -/
def insertPath (paths : List String) (p : String) : List String :=
  if paths.contains p then paths else p :: paths

/-- `DataModel` (`data_model.rs`): document, dirty paths, version. -/
structure DataModel where
  data : Json
  dirtyPaths : List String
  version : Nat
  deriving Repr

namespace DataModel

/-- `DataModel::new`. -/
def new : DataModel := { data := .obj [], dirtyPaths := [], version := 0 }

/-- `DataModel::with_data`. -/
def withData (data : Json) : DataModel :=
  { data := data, dirtyPaths := [], version := 0 }

/-- `DataModel::get`. -/
def get (m : DataModel) (path : String) : Option Json :=
  getPtr (parsePointer path) m.data

/-- `DataModel::get_string`. -/
def getString (m : DataModel) (path : String) : Option String :=
  match m.get path with
  | some (.str s) => some s
  | _ => none

/-- `DataModel::set`: on success record the path dirty and bump the
version; on failure keep the (possibly partially mutated) document. -/
def set (m : DataModel) (path : String) (v : Json) : DataModel :=
  let r := setPtr v (parsePointer path) m.data
  if r.1 then
    { data := r.2, dirtyPaths := insertPath m.dirtyPaths path,
      version := m.version + 1 }
  else
    { m with data := r.2 }

/-- `DataModel::delete`. -/
def delete (m : DataModel) (path : String) : DataModel × Bool :=
  match delPtr (parsePointer path) m.data with
  | some d =>
    ({ data := d, dirtyPaths := insertPath m.dirtyPaths path,
       version := m.version + 1 }, true)
  | none => (m, false)

/-- `DataModel::is_dirty`: exact membership, else any recorded dirty path
related to `path` by string prefix in either direction. -/
def isDirty (m : DataModel) (path : String) : Bool :=
  if m.dirtyPaths.contains path then true
  else m.dirtyPaths.any fun dp => strStartsWith path dp || strStartsWith dp path

/-- `DataModel::clear_dirty`. -/
def clearDirty (m : DataModel) : DataModel := { m with dirtyPaths := [] }

end DataModel

/-! ### Protocol message types (`value.rs`, `message.rs`)

The Lean constructors keep the Rust variant/field names; `end` is a Lean
keyword, so the `End` variants of `Alignment`/`Distribution` are spelled
`end_`.  `f64` payloads are modelled as `Int` (see the header). -/

/-- `StringValue` (`value.rs`): literal or data-bound path. -/
inductive StringValue where
  | literal (literalString : String)
  | path (path : String)
  deriving Repr

/-- `NumberValue` (`value.rs`). -/
inductive NumberValue where
  | literal (literalNumber : Int)
  | path (path : String)
  deriving Repr

/-- `BooleanValue` (`value.rs`). -/
inductive BooleanValue where
  | literal (literalBoolean : Bool)
  | path (path : String)
  deriving Repr

/-- `Alignment` (`message.rs`), with the `serde(other)` variant. -/
inductive Alignment where
  | start | center | end_ | stretch | unknown
  deriving Repr

/-- `Distribution` (`message.rs`). -/
inductive Distribution where
  | start | center | end_ | spaceBetween | spaceAround | spaceEvenly | unknown
  deriving Repr

/-- `ListDirection` (`message.rs`). -/
inductive ListDirection where
  | vertical | horizontal | unknown
  deriving Repr

/-- `TextUsageHint` (`message.rs`). -/
inductive TextUsageHint where
  | h1 | h2 | h3 | h4 | h5 | body | caption | code | unknown
  deriving Repr

/-- `ImageFit` (`message.rs`). -/
inductive ImageFit where
  | contain | cover | fill | nofit | scaleDown | unknown
  deriving Repr

/-- `ImageUsageHint` (`message.rs`). -/
inductive ImageUsageHint where
  | icon | avatar | smallFeature | mediumFeature | largeFeature | header | unknown
  deriving Repr

/-- `Orientation` (`message.rs`). -/
inductive Orientation where
  | horizontal | vertical | unknown
  deriving Repr

/-- `TextInputType` (`message.rs`). -/
inductive TextInputType where
  | text | email | password | number | tel | url | unknown
  deriving Repr

/-- `ChildrenRef` (`message.rs`). -/
inductive ChildrenRef where
  | explicitList (ids : List String)
  | template (componentId : String) (dataBinding : String)
  deriving Repr

/-- `ActionValue` (`message.rs`), an untagged union. -/
inductive ActionValue where
  | string (sv : StringValue)
  | number (nv : NumberValue)
  | boolean (bv : BooleanValue)
  deriving Repr

/-- `ActionContextItem` (`message.rs`). -/
structure ActionContextItem where
  key : String
  value : ActionValue
  deriving Repr

/-- `ActionDefinition` (`message.rs`). -/
structure ActionDefinition where
  name : String
  context : List ActionContextItem
  deriving Repr

/-- `ChoiceOption` (`message.rs`). -/
structure ChoiceOption where
  value : String
  label : StringValue
  deriving Repr

/-- `TabDefinition` (`message.rs`). -/
structure TabDefinition where
  id : String
  label : StringValue
  content : String
  deriving Repr

/-- `ColumnComponent` (`message.rs`). -/
structure ColumnComponent where
  children : ChildrenRef
  alignment : Option Alignment
  distribution : Option Distribution
  deriving Repr

/-- `RowComponent` (`message.rs`). -/
structure RowComponent where
  children : ChildrenRef
  alignment : Option Alignment
  distribution : Option Distribution
  deriving Repr

/-- `ListComponent` (`message.rs`). -/
structure ListComponent where
  children : ChildrenRef
  direction : Option ListDirection
  deriving Repr

/-- `CardComponent` (`message.rs`); `elevation: Option<u8>`. -/
structure CardComponent where
  child : String
  elevation : Option Nat
  deriving Repr

/-- `TextComponent` (`message.rs`). -/
structure TextComponent where
  text : StringValue
  usageHint : Option TextUsageHint
  deriving Repr

/-- `ImageComponent` (`message.rs`). -/
structure ImageComponent where
  url : StringValue
  fit : Option ImageFit
  usageHint : Option ImageUsageHint
  deriving Repr

/-- `IconComponent` (`message.rs`). -/
structure IconComponent where
  name : StringValue
  size : Option Int
  deriving Repr

/-- `DividerComponent` (`message.rs`). -/
structure DividerComponent where
  orientation : Option Orientation
  deriving Repr

/-- `ButtonComponent` (`message.rs`). -/
structure ButtonComponent where
  child : String
  primary : Option Bool
  action : Option ActionDefinition
  deriving Repr

/-- `TextFieldComponent` (`message.rs`). -/
structure TextFieldComponent where
  text : StringValue
  label : Option StringValue
  placeholder : Option StringValue
  inputType : Option TextInputType
  deriving Repr

/-- `CheckBoxComponent` (`message.rs`). -/
structure CheckBoxComponent where
  value : BooleanValue
  label : Option StringValue
  deriving Repr

/-- `SliderComponent` (`message.rs`). -/
structure SliderComponent where
  value : NumberValue
  min : Option Int
  max : Option Int
  step : Option Int
  deriving Repr

/-- `MultipleChoiceComponent` (`message.rs`). -/
structure MultipleChoiceComponent where
  value : StringValue
  options : List ChoiceOption
  multiSelect : Option Bool
  deriving Repr

/-- `ModalComponent` (`message.rs`). -/
structure ModalComponent where
  visible : BooleanValue
  children : ChildrenRef
  deriving Repr

/-- `TabsComponent` (`message.rs`). -/
structure TabsComponent where
  tabs : List TabDefinition
  selected : Option StringValue
  deriving Repr

/-- `ComponentType` (`message.rs`): the closed union of component kinds. -/
inductive ComponentType where
  | column (c : ColumnComponent)
  | row (c : RowComponent)
  | list (c : ListComponent)
  | card (c : CardComponent)
  | text (c : TextComponent)
  | image (c : ImageComponent)
  | icon (c : IconComponent)
  | divider (c : DividerComponent)
  | button (c : ButtonComponent)
  | textField (c : TextFieldComponent)
  | checkBox (c : CheckBoxComponent)
  | slider (c : SliderComponent)
  | multipleChoice (c : MultipleChoiceComponent)
  | modal (c : ModalComponent)
  | tabs (c : TabsComponent)
  deriving Repr

/-- `ComponentDefinition` (`message.rs`). -/
structure ComponentDefinition where
  id : String
  weight : Option Int
  component : ComponentType
  deriving Repr

/-- `SurfaceStyles` (`message.rs`): two named fields plus the flattened
`extra` map collecting all remaining entries. -/
structure SurfaceStyles where
  primaryColor : Option String
  font : Option String
  extra : List (String × Json)
  deriving Repr

mutual
/-- `DataValue` (`message.rs`): recursive typed data union. -/
inductive DataValue where
  | valueString (s : String)
  | valueNumber (n : Int)
  | valueBoolean (b : Bool)
  | valueMap (contents : List DataContent)
  | valueArray (items : List DataValue)

/-- `DataContent` (`message.rs`): key plus flattened `DataValue`. -/
inductive DataContent where
  | mk (key : String) (value : DataValue)
end

/-- Field accessor for `DataContent.key`. -/
def DataContent.key : DataContent → String
  | .mk k _ => k

/-- Field accessor for `DataContent.value`. -/
def DataContent.value : DataContent → DataValue
  | .mk _ v => v

/-- `BeginRendering` (`message.rs`). -/
structure BeginRendering where
  surfaceId : String
  root : String
  styles : Option SurfaceStyles
  deriving Repr

/-- `SurfaceUpdate` (`message.rs`). -/
structure SurfaceUpdate where
  surfaceId : String
  components : List ComponentDefinition
  deriving Repr

/-- `DataModelUpdate` (`message.rs`); `path` defaults to `"/"`. -/
structure DataModelUpdate where
  surfaceId : String
  path : String
  contents : List DataContent

/-- `DeleteSurface` (`message.rs`). -/
structure DeleteSurface where
  surfaceId : String
  deriving Repr

/-- `UserActionPayload` (`message.rs`). -/
structure UserActionPayload where
  name : String
  context : List (String × Json)
  deriving Repr

/-- `UserAction` (`message.rs`). -/
structure UserAction where
  surfaceId : String
  action : UserActionPayload
  componentId : Option String
  deriving Repr

/-- `A2uiMessage` (`message.rs`): the five protocol message kinds. -/
inductive A2uiMessage where
  | beginRendering (m : BeginRendering)
  | surfaceUpdate (m : SurfaceUpdate)
  | dataModelUpdate (m : DataModelUpdate)
  | deleteSurface (m : DeleteSurface)
  | userAction (m : UserAction)

mutual
/-- `DataModel::data_value_to_json` (`data_model.rs`). -/
def dataValueToJson : DataValue → Json
  | .valueString s => .str s
  | .valueNumber n => .num n
  | .valueBoolean b => .bool b
  | .valueMap cs => .obj (dataContentsToObj cs [])
  | .valueArray items => .arr (dataValuesToJson items)

/-- The `ValueMap` branch of `data_value_to_json`: fold the contents into
a fresh object map in order. -/
def dataContentsToObj : List DataContent → List (String × Json) → List (String × Json)
  | [], acc => acc
  | .mk k v :: cs, acc => dataContentsToObj cs (objInsert acc k (dataValueToJson v))

/-- The `ValueArray` branch of `data_value_to_json`. -/
def dataValuesToJson : List DataValue → List Json
  | [] => []
  | v :: vs => dataValueToJson v :: dataValuesToJson vs
end

/-- Rust `str::trim_end_matches('/')` on the character level. -/
def trimEndSlashes (s : String) : String :=
  String.mk ((s.data.reverse.dropWhile (fun c => c = '/')).reverse)

/-- The full path built by `DataModel::apply_updates` and
`process_data_model_update` for one content item. -/
def contentFullPath (basePath : String) (key : String) : String :=
  if basePath = "/" then "/" ++ key
  else trimEndSlashes basePath ++ "/" ++ key

/-- `DataModel::apply_updates` (`data_model.rs`). -/
def DataModel.applyUpdates (m : DataModel) (basePath : String)
    (contents : List DataContent) : DataModel :=
  contents.foldl
    (fun acc c => acc.set (contentFullPath basePath c.key) (dataValueToJson c.value)) m

/-- `SurfaceDataModels::get_or_create` (`data_model.rs`): the map after
the call (the entry is created only when absent). -/
def getOrCreate (models : List (String × DataModel)) (surfaceId : String) :
    List (String × DataModel) :=
  match mapFind models surfaceId with
  | some _ => models
  | none => mapInsert models surfaceId DataModel.new

/-! ### Processor (`processor.rs`) -/

/-- `Surface` (`processor.rs`). -/
structure Surface where
  id : String
  root : String
  styles : Option SurfaceStyles
  components : List (String × ComponentDefinition)
  needsRedraw : Bool
  deriving Repr

/-- `Surface::new`: empty component map, redraw flag set. -/
def Surface.new (id root : String) (styles : Option SurfaceStyles) : Surface :=
  { id := id, root := root, styles := styles, components := [], needsRedraw := true }

/-- `ProcessorEvent` (`processor.rs`); the event structs are inlined as
constructor fields. -/
inductive ProcessorEvent where
  | surfaceCreated (surfaceId : String)
  | surfaceUpdated (surfaceId : String) (updatedComponents : List String)
  | surfaceDeleted (surfaceId : String)
  | dataModelUpdated (surfaceId : String) (updatedPaths : List String)
  deriving Repr

/-- `A2uiMessageProcessor` (`processor.rs`).  The component registry is a
static lookup table never consulted by any of the embedded operations and
is omitted. -/
structure A2uiMessageProcessor where
  surfaces : List (String × Surface)
  dataModels : List (String × DataModel)
  pendingActions : List UserAction

namespace A2uiMessageProcessor

/-- A processor with no surfaces, data models or pending actions
(`A2uiMessageProcessor::new`). -/
def new : A2uiMessageProcessor :=
  { surfaces := [], dataModels := [], pendingActions := [] }

/-- `A2uiMessageProcessor::get_surface`. -/
def getSurface (p : A2uiMessageProcessor) (surfaceId : String) : Option Surface :=
  mapFind p.surfaces surfaceId

/-- `A2uiMessageProcessor::get_data_model`. -/
def getDataModel (p : A2uiMessageProcessor) (surfaceId : String) : Option DataModel :=
  mapFind p.dataModels surfaceId

/-- `process_begin_rendering` (`processor.rs`): build a fresh surface,
lazily create the data model, store the surface, emit `SurfaceCreated`. -/
def processBeginRendering (p : A2uiMessageProcessor) (msg : BeginRendering) :
    A2uiMessageProcessor × List ProcessorEvent :=
  let surface := Surface.new msg.surfaceId msg.root msg.styles
  ({ p with
      dataModels := getOrCreate p.dataModels msg.surfaceId,
      surfaces := mapInsert p.surfaces msg.surfaceId surface },
   [.surfaceCreated msg.surfaceId])

/-- `process_surface_update` (`processor.rs`): create the surface
implicitly when absent, upsert every component by id, mark redraw. -/
def processSurfaceUpdate (p : A2uiMessageProcessor) (msg : SurfaceUpdate) :
    A2uiMessageProcessor × List ProcessorEvent :=
  let base :=
    match mapFind p.surfaces msg.surfaceId with
    | some _ => p
    | none =>
      { p with
          surfaces := mapInsert p.surfaces msg.surfaceId
            (Surface.new msg.surfaceId "" none),
          dataModels := getOrCreate p.dataModels msg.surfaceId }
  let updatedIds := msg.components.map fun c => c.id
  let surfaces :=
    match mapFind base.surfaces msg.surfaceId with
    | some s =>
      let s := msg.components.foldl
        (fun s c => { s with components := mapInsert s.components c.id c }) s
      mapInsert base.surfaces msg.surfaceId { s with needsRedraw := true }
    | none => base.surfaces
  ({ base with surfaces := surfaces },
   [.surfaceUpdated msg.surfaceId updatedIds])

/-- `process_data_model_update` (`processor.rs`): get-or-create the data
model, merge the contents under the base path, mark the surface (when it
exists) as needing redraw, emit `DataModelUpdated`. -/
def processDataModelUpdate (p : A2uiMessageProcessor) (msg : DataModelUpdate) :
    A2uiMessageProcessor × List ProcessorEvent :=
  let models := getOrCreate p.dataModels msg.surfaceId
  let updatedPaths := msg.contents.map fun c => contentFullPath msg.path c.key
  let models :=
    match mapFind models msg.surfaceId with
    | some dm => mapInsert models msg.surfaceId (dm.applyUpdates msg.path msg.contents)
    | none => models
  let surfaces :=
    match mapFind p.surfaces msg.surfaceId with
    | some s => mapInsert p.surfaces msg.surfaceId { s with needsRedraw := true }
    | none => p.surfaces
  ({ p with dataModels := models, surfaces := surfaces },
   [.dataModelUpdated msg.surfaceId updatedPaths])

/-- `process_delete_surface` (`processor.rs`). -/
def processDeleteSurface (p : A2uiMessageProcessor) (msg : DeleteSurface) :
    A2uiMessageProcessor × List ProcessorEvent :=
  ({ p with
      surfaces := mapErase p.surfaces msg.surfaceId,
      dataModels := mapErase p.dataModels msg.surfaceId },
   [.surfaceDeleted msg.surfaceId])

/-- `process_message` (`processor.rs`): dispatch; a `UserAction` is only
queued for the host and emits no event. -/
def processMessage (p : A2uiMessageProcessor) :
    A2uiMessage → A2uiMessageProcessor × List ProcessorEvent
  | .beginRendering msg => p.processBeginRendering msg
  | .surfaceUpdate msg => p.processSurfaceUpdate msg
  | .dataModelUpdate msg => p.processDataModelUpdate msg
  | .deleteSurface msg => p.processDeleteSurface msg
  | .userAction msg => ({ p with pendingActions := p.pendingActions ++ [msg] }, [])

/-- `process_messages` (`processor.rs`): fold, concatenating events. -/
def processMessages (p : A2uiMessageProcessor) (msgs : List A2uiMessage) :
    A2uiMessageProcessor × List ProcessorEvent :=
  msgs.foldl
    (fun acc m =>
      let r := processMessage acc.1 m
      (r.1, acc.2 ++ r.2))
    (p, [])

end A2uiMessageProcessor

/-- `resolve_path` (`processor.rs`): absolute paths are used verbatim,
relative paths get the scope prepended, relative paths without a scope
are made absolute. -/
def resolvePath (path : String) (scope : Option String) : String :=
  if strStartsWith path "/" then path
  else
    match scope with
    | some scopePrefix => scopePrefix ++ "/" ++ path
    | none => "/" ++ path

/-! ### SSE line parser (`sse.rs`) -/

/-- `SseEvent` (`sse.rs`); the transport-only `Error`/`Done` variants are
included for completeness. -/
inductive SseEvent where
  | data (payload : String)
  | comment (text : String)
  | error (message : String)
  | done
  deriving Repr

/-- Rust `str::trim` on the character level. -/
def strTrim (s : String) : String :=
  String.mk (((s.data.dropWhile Char.isWhitespace).reverse.dropWhile
    Char.isWhitespace).reverse)

/-- Rust `Vec::join("\n")`. -/
def joinLines : List String → String
  | [] => ""
  | [x] => x
  | x :: xs => x ++ "\n" ++ joinLines xs

/-- The `SseParser` state (`sse.rs`): the accumulated `data:` payloads. -/
structure SseParserState where
  dataBuffer : List String
  deriving Repr

/-- `SseParser::new`. -/
def SseParserState.new : SseParserState := { dataBuffer := [] }

/-- `SseParser::parse_line` (`sse.rs`). -/
def parseLine (st : SseParserState) (line : String) :
    SseParserState × Option SseEvent :=
  if strStartsWith line "data:" then
    ({ dataBuffer := st.dataBuffer ++ [strTrim (String.mk (line.data.drop 5))] },
     none)
  else if strStartsWith line ":" then
    (st, some (.comment (strTrim (String.mk (line.data.drop 1)))))
  else if line = "" then
    if st.dataBuffer.isEmpty then (st, none)
    else ({ dataBuffer := [] }, some (.data (joinLines st.dataBuffer)))
  else (st, none)

/-- `SseParser::flush` (`sse.rs`). -/
def flush (st : SseParserState) : SseParserState × Option SseEvent :=
  if st.dataBuffer.isEmpty then (st, none)
  else ({ dataBuffer := [] }, some (.data (joinLines st.dataBuffer)))

/-! ### JSON repair, steps 1 and 2 (`processor.rs`)

`strip_json_comments` and `fix_trailing_commas` are character-level scans
with an in-string / escape state; they are embedded as recursions over
`String.data`. -/

/-- The inner scan of the `/* ... */` branch of `strip_json_comments`:
drop everything up to and including the first `*/`; when no `*/` follows,
the final lone character (if any) is also consumed. -/
def skipBlock : List Char → List Char
  | [] => []
  | [_] => []
  | c :: d :: rest => if c = '*' ∧ d = '/' then rest else skipBlock (d :: rest)

/-- `List.dropWhile` never lengthens its input. -/
theorem dropWhile_length_le {α : Type} (p : α → Bool) :
    ∀ l : List α, (l.dropWhile p).length ≤ l.length
  | [] => Nat.le_refl _
  | a :: l => by
    cases hpa : p a <;> simp [List.dropWhile, hpa]
    have h := dropWhile_length_le p l
    omega

/-- `skipBlock` never lengthens its input. -/
theorem skipBlock_length_le : ∀ l : List Char, (skipBlock l).length ≤ l.length
  | [] => by simp [skipBlock]
  | [c] => by simp [skipBlock]
  | c :: d :: rest => by
    rw [skipBlock]
    split
    · simp
      omega
    · have h := skipBlock_length_le (d :: rest)
      simp at h ⊢
      omega

/-- Combined bound for the `/* ... */` branch. -/
theorem skipBlock_tail_length_le (cs : List Char) :
    (skipBlock cs.tail).length ≤ cs.length :=
  Nat.le_trans (skipBlock_length_le _) (by cases cs <;> simp)

/-- `strip_json_comments` (`processor.rs`) on characters; the two `Bool`s
are the `in_string` and `escape_next` flags.  A `//` outside a string
drops everything up to (not including) the next newline; a `/*` drops
through the closing `*/` via `skipBlock`. -/
def stripGo (inStr esc : Bool) : List Char → List Char
  | [] => []
  | c :: cs =>
    if esc then c :: stripGo inStr false cs
    else if inStr then
      if c = '\\' then c :: stripGo true true cs
      else if c = '"' then c :: stripGo false false cs
      else c :: stripGo true false cs
    else if c = '"' then c :: stripGo true false cs
    else if c = '/' ∧ cs.head? = some '/' then
      stripGo false false (cs.dropWhile fun x => x != '\n')
    else if c = '/' ∧ cs.head? = some '*' then
      stripGo false false (skipBlock cs.tail)
    else c :: stripGo false false cs
termination_by cs => cs.length
decreasing_by
  all_goals simp_wf
  all_goals first
  | omega
  | (refine Nat.lt_of_le_of_lt (dropWhile_length_le _ _) ?_; omega)
  | (refine Nat.lt_of_le_of_lt (skipBlock_tail_length_le _) ?_; omega)

/-- `A2uiMessageProcessor::strip_json_comments`. -/
def stripJsonComments (s : String) : String :=
  String.mk (stripGo false false s.data)

/-- `fix_trailing_commas` (`processor.rs`) on characters. -/
def fixGo (inStr esc : Bool) : List Char → List Char
  | [] => []
  | c :: cs =>
    if esc then c :: fixGo inStr false cs
    else if inStr then
      if c = '\\' then c :: fixGo true true cs
      else if c = '"' then c :: fixGo false false cs
      else c :: fixGo true false cs
    else if c = '"' then c :: fixGo true false cs
    else if c = ',' then
      match cs.find? (fun x => !x.isWhitespace) with
      | some b => if b = ']' ∨ b = '}' then fixGo false false cs
                  else c :: fixGo false false cs
      | none => c :: fixGo false false cs
    else c :: fixGo false false cs

/-- `A2uiMessageProcessor::fix_trailing_commas`. -/
def fixTrailingCommas (s : String) : String :=
  String.mk (fixGo false false s.data)

/-- Steps 1 and 2 of `repair_json` (`processor.rs`, lines 274-277):
strip comments, then remove trailing commas. -/
def repairStep12 (s : String) : String :=
  fixTrailingCommas (stripJsonComments s)

/-- The pure in-string / escape state evolution shared by both scans:
characters only toggle the state via `"` and in-string `\`. -/
def scanStr : Bool → Bool → List Char → Bool × Bool
  | inStr, esc, [] => (inStr, esc)
  | inStr, esc, c :: cs =>
    if esc then scanStr inStr false cs
    else if inStr then
      if c = '\\' then scanStr true true cs
      else if c = '"' then scanStr false false cs
      else scanStr true false cs
    else if c = '"' then scanStr true false cs
    else scanStr false false cs

/-- Whether a character list contains an adjacent `*/` pair (the block
comment terminator). -/
def hasStarSlash : List Char → Bool
  | [] => false
  | [_] => false
  | c :: d :: rest => if c = '*' ∧ d = '/' then true else hasStarSlash (d :: rest)

/-! ### Deserialization (`serde_json::from_value` for the derived schema)

`process_json` falls back to interpreting each array element of a valid
JSON batch independently.  The serde-derived deserializers of
`message.rs`/`value.rs` are modelled here value-level: externally tagged
enums require an object with exactly one entry whose key is a variant
name; struct fields follow the `camelCase` renames; `#[serde(default)]`
fields fall back to the Rust `Default` when absent; `Option` fields treat
`null` like an absent value; unknown struct fields are ignored;
`#[serde(untagged)]` unions try their variants in declaration order;
`#[serde(other)]` unit variants absorb every unknown string. -/

/-- A required `String` struct field. -/
def reqStr (fields : List (String × Json)) (name : String) : Option String :=
  match objFind fields name with
  | some (.str s) => some s
  | _ => none

/-- An `Option<String>` struct field with `#[serde(default)]`. -/
def optStr (fields : List (String × Json)) (name : String) :
    Option (Option String) :=
  match objFind fields name with
  | none => some none
  | some .null => some none
  | some (.str s) => some (some s)
  | some _ => none

/-- An `Option<T>` struct field with `#[serde(default)]`. -/
def optField {α : Type} (dec : Json → Option α)
    (fields : List (String × Json)) (name : String) : Option (Option α) :=
  match objFind fields name with
  | none => some none
  | some .null => some none
  | some v => (dec v).map some

/-- An `Option<bool>` struct field. -/
def optBool (fields : List (String × Json)) (name : String) :
    Option (Option Bool) :=
  optField (fun j => match j with | .bool b => some b | _ => none) fields name

/-- An `Option<f64>` struct field (numbers modelled as `Int`). -/
def optNum (fields : List (String × Json)) (name : String) :
    Option (Option Int) :=
  optField (fun j => match j with | .num n => some n | _ => none) fields name

/-- `StringValue` deserialization: untagged, `Literal` before `Path`. -/
def decodeStringValue : Json → Option StringValue
  | .obj fields =>
    match objFind fields "literalString" with
    | some (.str s) => some (.literal s)
    | _ =>
      match objFind fields "path" with
      | some (.str p) => some (.path p)
      | _ => none
  | _ => none

/-- `NumberValue` deserialization. -/
def decodeNumberValue : Json → Option NumberValue
  | .obj fields =>
    match objFind fields "literalNumber" with
    | some (.num n) => some (.literal n)
    | _ =>
      match objFind fields "path" with
      | some (.str p) => some (.path p)
      | _ => none
  | _ => none

/-- `BooleanValue` deserialization. -/
def decodeBooleanValue : Json → Option BooleanValue
  | .obj fields =>
    match objFind fields "literalBoolean" with
    | some (.bool b) => some (.literal b)
    | _ =>
      match objFind fields "path" with
      | some (.str p) => some (.path p)
      | _ => none
  | _ => none

/-- `Alignment` deserialization (`camelCase` names, `other` catch-all). -/
def decodeAlignment : Json → Option Alignment
  | .str s => some (if s = "start" then .start else if s = "center" then .center
      else if s = "end" then .end_ else if s = "stretch" then .stretch
      else .unknown)
  | _ => none

/-- `Distribution` deserialization. -/
def decodeDistribution : Json → Option Distribution
  | .str s => some (if s = "start" then .start else if s = "center" then .center
      else if s = "end" then .end_ else if s = "spaceBetween" then .spaceBetween
      else if s = "spaceAround" then .spaceAround
      else if s = "spaceEvenly" then .spaceEvenly else .unknown)
  | _ => none

/-- `ListDirection` deserialization. -/
def decodeListDirection : Json → Option ListDirection
  | .str s => some (if s = "vertical" then .vertical
      else if s = "horizontal" then .horizontal else .unknown)
  | _ => none

/-- `TextUsageHint` deserialization. -/
def decodeTextUsageHint : Json → Option TextUsageHint
  | .str s => some (if s = "h1" then .h1 else if s = "h2" then .h2
      else if s = "h3" then .h3 else if s = "h4" then .h4
      else if s = "h5" then .h5 else if s = "body" then .body
      else if s = "caption" then .caption else if s = "code" then .code
      else .unknown)
  | _ => none

/-- `ImageFit` deserialization. -/
def decodeImageFit : Json → Option ImageFit
  | .str s => some (if s = "contain" then .contain else if s = "cover" then .cover
      else if s = "fill" then .fill else if s = "none" then .nofit
      else if s = "scaleDown" then .scaleDown else .unknown)
  | _ => none

/-- `ImageUsageHint` deserialization. -/
def decodeImageUsageHint : Json → Option ImageUsageHint
  | .str s => some (if s = "icon" then .icon else if s = "avatar" then .avatar
      else if s = "smallFeature" then .smallFeature
      else if s = "mediumFeature" then .mediumFeature
      else if s = "largeFeature" then .largeFeature
      else if s = "header" then .header else .unknown)
  | _ => none

/-- `Orientation` deserialization. -/
def decodeOrientation : Json → Option Orientation
  | .str s => some (if s = "horizontal" then .horizontal
      else if s = "vertical" then .vertical else .unknown)
  | _ => none

/-- `TextInputType` deserialization. -/
def decodeTextInputType : Json → Option TextInputType
  | .str s => some (if s = "text" then .text else if s = "email" then .email
      else if s = "password" then .password else if s = "number" then .number
      else if s = "tel" then .tel else if s = "url" then .url else .unknown)
  | _ => none

/-- `ChildrenRef` deserialization: externally tagged, `camelCase`. -/
def decodeChildrenRef : Json → Option ChildrenRef
  | .obj [(k, v)] =>
    if k = "explicitList" then
      match v with
      | .arr items =>
        (items.mapM fun j => match j with | Json.str s => some s | _ => none).map
          ChildrenRef.explicitList
      | _ => none
    else if k = "template" then
      match v with
      | .obj f =>
        match reqStr f "componentId", reqStr f "dataBinding" with
        | some cid, some db => some (.template cid db)
        | _, _ => none
      | _ => none
    else none
  | _ => none

/-- The `ChildrenRef` struct field: `#[serde(default)]` gives the empty
explicit list when absent. -/
def childrenField (fields : List (String × Json)) : Option ChildrenRef :=
  match objFind fields "children" with
  | none => some (.explicitList [])
  | some v => decodeChildrenRef v

/-- `ActionValue` deserialization: untagged, declaration order. -/
def decodeActionValue (j : Json) : Option ActionValue :=
  match decodeStringValue j with
  | some sv => some (.string sv)
  | none =>
    match decodeNumberValue j with
    | some nv => some (.number nv)
    | none =>
      match decodeBooleanValue j with
      | some bv => some (.boolean bv)
      | none => none

/-- `ActionContextItem` deserialization: both fields default. -/
def decodeActionContextItem : Json → Option ActionContextItem
  | .obj fields =>
    let keyR : Option String :=
      match objFind fields "key" with
      | none => some ""
      | some (.str s) => some s
      | some _ => none
    let valR : Option ActionValue :=
      match objFind fields "value" with
      | none => some (.string (.literal ""))
      | some v => decodeActionValue v
    match keyR, valR with
    | some k, some v => some { key := k, value := v }
    | _, _ => none
  | _ => none

/-- `ActionDefinition` deserialization. -/
def decodeActionDefinition : Json → Option ActionDefinition
  | .obj fields =>
    match reqStr fields "name" with
    | some n =>
      (match objFind fields "context" with
        | none => some []
        | some (.arr items) => items.mapM decodeActionContextItem
        | some _ => none).map fun ctx => { name := n, context := ctx }
    | none => none
  | _ => none

/-- `ChoiceOption` deserialization. -/
def decodeChoiceOption : Json → Option ChoiceOption
  | .obj fields =>
    match reqStr fields "value", (objFind fields "label").bind decodeStringValue with
    | some v, some l => some { value := v, label := l }
    | _, _ => none
  | _ => none

/-- `TabDefinition` deserialization. -/
def decodeTabDefinition : Json → Option TabDefinition
  | .obj fields =>
    match reqStr fields "id", (objFind fields "label").bind decodeStringValue,
        reqStr fields "content" with
    | some i, some l, some c => some { id := i, label := l, content := c }
    | _, _, _ => none
  | _ => none

/-- `ComponentType` deserialization: externally tagged with the exact
Rust variant names (no rename), each payload decoded per its struct. -/
def decodeComponentType : Json → Option ComponentType
  | .obj [(k, v)] =>
    match v with
    | .obj f =>
      if k = "Column" then
        match childrenField f, optField decodeAlignment f "alignment",
            optField decodeDistribution f "distribution" with
        | some ch, some al, some di =>
          some (.column { children := ch, alignment := al, distribution := di })
        | _, _, _ => none
      else if k = "Row" then
        match childrenField f, optField decodeAlignment f "alignment",
            optField decodeDistribution f "distribution" with
        | some ch, some al, some di =>
          some (.row { children := ch, alignment := al, distribution := di })
        | _, _, _ => none
      else if k = "List" then
        match childrenField f, optField decodeListDirection f "direction" with
        | some ch, some di => some (.list { children := ch, direction := di })
        | _, _ => none
      else if k = "Card" then
        let elevR : Option (Option Nat) :=
          match objFind f "elevation" with
          | none => some none
          | some .null => some none
          | some (.num n) =>
            if 0 ≤ n ∧ n < 256 then some (some n.toNat) else none
          | some _ => none
        match reqStr f "child", elevR with
        | some c, some e => some (.card { child := c, elevation := e })
        | _, _ => none
      else if k = "Text" then
        let textR : Option StringValue :=
          match objFind f "text" with
          | none => some (.literal "")
          | some tv => decodeStringValue tv
        match textR, optField decodeTextUsageHint f "usageHint" with
        | some t, some u => some (.text { text := t, usageHint := u })
        | _, _ => none
      else if k = "Image" then
        match (objFind f "url").bind decodeStringValue,
            optField decodeImageFit f "fit",
            optField decodeImageUsageHint f "usageHint" with
        | some u, some fit, some uh =>
          some (.image { url := u, fit := fit, usageHint := uh })
        | _, _, _ => none
      else if k = "Icon" then
        match (objFind f "name").bind decodeStringValue, optNum f "size" with
        | some n, some sz => some (.icon { name := n, size := sz })
        | _, _ => none
      else if k = "Divider" then
        (optField decodeOrientation f "orientation").map fun o =>
          .divider { orientation := o }
      else if k = "Button" then
        match reqStr f "child", optBool f "primary",
            optField decodeActionDefinition f "action" with
        | some c, some pr, some ac =>
          some (.button { child := c, primary := pr, action := ac })
        | _, _, _ => none
      else if k = "TextField" then
        match (objFind f "text").bind decodeStringValue,
            optField decodeStringValue f "label",
            optField decodeStringValue f "placeholder",
            optField decodeTextInputType f "inputType" with
        | some t, some l, some pl, some it =>
          some (.textField
            { text := t, label := l, placeholder := pl, inputType := it })
        | _, _, _, _ => none
      else if k = "CheckBox" then
        match (objFind f "value").bind decodeBooleanValue,
            optField decodeStringValue f "label" with
        | some v2, some l => some (.checkBox { value := v2, label := l })
        | _, _ => none
      else if k = "Slider" then
        match (objFind f "value").bind decodeNumberValue, optNum f "min",
            optNum f "max", optNum f "step" with
        | some v2, some mn, some mx, some st =>
          some (.slider { value := v2, min := mn, max := mx, step := st })
        | _, _, _, _ => none
      else if k = "MultipleChoice" then
        let optionsR : Option (List ChoiceOption) :=
          match objFind f "options" with
          | some (.arr items) => items.mapM decodeChoiceOption
          | _ => none
        match (objFind f "value").bind decodeStringValue, optionsR,
            optBool f "multiSelect" with
        | some v2, some os, some ms =>
          some (.multipleChoice { value := v2, options := os, multiSelect := ms })
        | _, _, _ => none
      else if k = "Modal" then
        match (objFind f "visible").bind decodeBooleanValue, childrenField f with
        | some v2, some ch => some (.modal { visible := v2, children := ch })
        | _, _ => none
      else if k = "Tabs" then
        let tabsR : Option (List TabDefinition) :=
          match objFind f "tabs" with
          | some (.arr items) => items.mapM decodeTabDefinition
          | _ => none
        match tabsR, optField decodeStringValue f "selected" with
        | some ts, some sel => some (.tabs { tabs := ts, selected := sel })
        | _, _ => none
      else none
    | _ => none
  | _ => none

/-- `ComponentDefinition` deserialization; `weight` uses the
`lenient_f64` deserializer of `message.rs` (non-numbers become `None`,
never an error). -/
def decodeComponentDefinition : Json → Option ComponentDefinition
  | .obj fields =>
    let weight : Option Int :=
      match objFind fields "weight" with
      | some (.num n) => some n
      | _ => none
    match reqStr fields "id",
        (objFind fields "component").bind decodeComponentType with
    | some i, some c => some { id := i, weight := weight, component := c }
    | _, _ => none
  | _ => none

/-- `SurfaceStyles` deserialization: the flattened `extra` map collects
every entry not consumed by the named fields. -/
def decodeSurfaceStyles : Json → Option SurfaceStyles
  | .obj fields =>
    match optStr fields "primaryColor", optStr fields "font" with
    | some pc, some fo =>
      some { primaryColor := pc, font := fo,
             extra := fields.filter
               (fun kv => kv.1 != "primaryColor" && kv.1 != "font") }
    | _, _ => none
  | _ => none

/-- Size bound used for the `DataValue` termination argument. -/
theorem mapErase_sizeOf_le (key : String) :
    ∀ m : List (String × Json), sizeOf (mapErase m key) ≤ sizeOf m
  | [] => Nat.le_refl _
  | (k, w) :: rest => by
    simp only [mapErase]
    split
    · simp
    · have h := mapErase_sizeOf_le key rest
      simp
      omega

mutual
/-- The externally tagged `DataValue` body: exactly one variant entry. -/
def decodeDataValueEntries : List (String × Json) → Option DataValue
  | [(k, v)] =>
    if k = "valueString" then
      match v with | .str s => some (.valueString s) | _ => none
    else if k = "valueNumber" then
      match v with | .num n => some (.valueNumber n) | _ => none
    else if k = "valueBoolean" then
      match v with | .bool b => some (.valueBoolean b) | _ => none
    else if k = "valueMap" then
      match v with
      | .arr items => (decodeDataContentList items).map .valueMap
      | _ => none
    else if k = "valueArray" then
      match v with
      | .arr items => (decodeDataValueList items).map .valueArray
      | _ => none
    else none
  | _ => none
termination_by l => sizeOf l
decreasing_by all_goals simp_wf; all_goals omega

/-- `DataValue` deserialization: externally tagged, `camelCase`. -/
def decodeDataValue : Json → Option DataValue
  | .obj entries => decodeDataValueEntries entries
  | _ => none
termination_by j => sizeOf j
decreasing_by all_goals simp_wf

/-- Decode a list of `DataContent` items. -/
def decodeDataContentList : List Json → Option (List DataContent)
  | [] => some []
  | j :: js =>
    match decodeDataContent j, decodeDataContentList js with
    | some c, some cs => some (c :: cs)
    | _, _ => none
termination_by l => sizeOf l
decreasing_by all_goals simp_wf; all_goals omega

/-- Decode a list of `DataValue` items. -/
def decodeDataValueList : List Json → Option (List DataValue)
  | [] => some []
  | j :: js =>
    match decodeDataValue j, decodeDataValueList js with
    | some v, some vs => some (v :: vs)
    | _, _ => none
termination_by l => sizeOf l
decreasing_by all_goals simp_wf; all_goals omega

/-- `DataContent` deserialization: the `key` field plus the flattened
`DataValue`, which must be exactly one variant entry among the remaining
fields. -/
def decodeDataContent : Json → Option DataContent
  | .obj fields =>
    match objFind fields "key" with
    | some (.str k) =>
      (decodeDataValueEntries (mapErase fields "key")).map fun v => .mk k v
    | _ => none
  | _ => none
termination_by j => sizeOf j
decreasing_by
  all_goals simp_wf
  all_goals (have h := mapErase_sizeOf_le "key" fields; omega)
end

/-- `BeginRendering` deserialization. -/
def decodeBeginRendering : Json → Option BeginRendering
  | .obj fields =>
    match reqStr fields "surfaceId", reqStr fields "root",
        optField decodeSurfaceStyles fields "styles" with
    | some sid, some r, some st =>
      some { surfaceId := sid, root := r, styles := st }
    | _, _, _ => none
  | _ => none

/-- `SurfaceUpdate` deserialization. -/
def decodeSurfaceUpdate : Json → Option SurfaceUpdate
  | .obj fields =>
    let compsR : Option (List ComponentDefinition) :=
      match objFind fields "components" with
      | some (.arr items) => items.mapM decodeComponentDefinition
      | _ => none
    match reqStr fields "surfaceId", compsR with
    | some sid, some cs => some { surfaceId := sid, components := cs }
    | _, _ => none
  | _ => none

/-- `DataModelUpdate` deserialization; `path` defaults to `"/"`. -/
def decodeDataModelUpdate : Json → Option DataModelUpdate
  | .obj fields =>
    let pathR : Option String :=
      match objFind fields "path" with
      | none => some "/"
      | some (.str s) => some s
      | some _ => none
    let contentsR : Option (List DataContent) :=
      match objFind fields "contents" with
      | some (.arr items) => decodeDataContentList items
      | _ => none
    match reqStr fields "surfaceId", pathR, contentsR with
    | some sid, some pa, some cs =>
      some { surfaceId := sid, path := pa, contents := cs }
    | _, _, _ => none
  | _ => none

/-- `DeleteSurface` deserialization. -/
def decodeDeleteSurface : Json → Option DeleteSurface
  | .obj fields =>
    (reqStr fields "surfaceId").map fun sid => { surfaceId := sid }
  | _ => none

/-- `UserActionPayload` deserialization; `context` is a default
`HashMap<String, Value>`. -/
def decodeUserActionPayload : Json → Option UserActionPayload
  | .obj fields =>
    let ctxR : Option (List (String × Json)) :=
      match objFind fields "context" with
      | none => some []
      | some (.obj entries) => some entries
      | some _ => none
    match reqStr fields "name", ctxR with
    | some n, some ctx => some { name := n, context := ctx }
    | _, _ => none
  | _ => none

/-- `UserAction` deserialization. -/
def decodeUserAction : Json → Option UserAction
  | .obj fields =>
    match reqStr fields "surfaceId",
        (objFind fields "action").bind decodeUserActionPayload,
        optStr fields "componentId" with
    | some sid, some ac, some cid =>
      some { surfaceId := sid, action := ac, componentId := cid }
    | _, _, _ => none
  | _ => none

/-- `A2uiMessage` deserialization: externally tagged, `camelCase`. -/
def decodeA2uiMessage : Json → Option A2uiMessage
  | .obj [(k, v)] =>
    if k = "beginRendering" then (decodeBeginRendering v).map .beginRendering
    else if k = "surfaceUpdate" then (decodeSurfaceUpdate v).map .surfaceUpdate
    else if k = "dataModelUpdate" then
      (decodeDataModelUpdate v).map .dataModelUpdate
    else if k = "deleteSurface" then (decodeDeleteSurface v).map .deleteSurface
    else if k = "userAction" then (decodeUserAction v).map .userAction
    else none
  | _ => none

namespace A2uiMessageProcessor

/-- The strict `Vec<A2uiMessage>` parse of `process_json`: it succeeds
exactly when every element matches the message schema. -/
def decodeAll : List Json → Option (List A2uiMessage)
  | [] => some []
  | v :: vs =>
    match decodeA2uiMessage v, decodeAll vs with
    | some m, some ms => some (m :: ms)
    | _, _ => none

/-- The per-element fallback loop of `process_json`: decode each element
independently, process the ones that match, skip the rest. -/
def processEach (p : A2uiMessageProcessor) (vs : List Json) :
    A2uiMessageProcessor × List ProcessorEvent :=
  vs.foldl
    (fun acc v =>
      match decodeA2uiMessage v with
      | some m =>
        let r := processMessage acc.1 m
        (r.1, acc.2 ++ r.2)
      | none => acc)
    (p, [])

/-- `process_json` (`processor.rs`) modelled at the JSON-value level: the
argument is the parsed value of the input text.  This covers exactly the
inputs that are syntactically valid JSON, for which `repair_json` is the
identity (its first check).  `none` models the `Err` return; the
processor state is returned alongside because the fallback loop mutates
it even when the call ends in `Err`. -/
def processJsonValue (p : A2uiMessageProcessor) (j : Json) :
    A2uiMessageProcessor × Option (List ProcessorEvent) :=
  match j with
  | .arr vs =>
    match decodeAll vs with
    | some msgs =>
      let r := processMessages p msgs
      (r.1, some r.2)
    | none =>
      let r := processEach p vs
      if r.2.isEmpty then
        match decodeA2uiMessage j with
        | some m =>
          let r2 := processMessage r.1 m
          (r2.1, some r2.2)
        | none => (r.1, none)
      else (r.1, some r.2)
  | _ =>
    match decodeA2uiMessage j with
    | some m =>
      let r := processMessage p m
      (r.1, some r.2)
    | none => (p, none)

end A2uiMessageProcessor

/-! ## Lemmas about the association-map model -/

theorem mapFind_insert_self {α : Type} (m : List (String × α)) (k : String) (v : α) :
    mapFind (mapInsert m k v) k = some v := by
  induction m with
  | nil => simp [mapInsert, mapFind]
  | cons kv rest ih =>
    obtain ⟨k2, w⟩ := kv
    by_cases h : k2 = k
    · subst h
      simp [mapInsert, mapFind]
    · simp [mapInsert, mapFind, h, ih]

theorem mapFind_insert_ne {α : Type} (m : List (String × α)) (k k2 : String)
    (v : α) (h : k2 ≠ k) : mapFind (mapInsert m k v) k2 = mapFind m k2 := by
  induction m with
  | nil =>
    simp only [mapInsert, mapFind]
    rw [if_neg (Ne.symm h)]
  | cons kv rest ih =>
    obtain ⟨k3, w⟩ := kv
    by_cases h3 : k3 = k
    · subst h3
      simp only [mapInsert, if_pos rfl, mapFind]
      rw [if_neg (Ne.symm h), if_neg (Ne.symm h)]
    · simp only [mapInsert, if_neg h3, mapFind]
      by_cases h32 : k3 = k2
      · rw [if_pos h32, if_pos h32]
      · rw [if_neg h32, if_neg h32]
        exact ih

theorem mapInsert_of_find {α : Type} {m : List (String × α)} {k : String}
    {v : α} (h : mapFind m k = some v) : mapInsert m k v = m := by
  induction m with
  | nil => simp [mapFind] at h
  | cons kv rest ih =>
    obtain ⟨k2, w⟩ := kv
    by_cases h2 : k2 = k
    · subst h2
      simp only [mapFind, if_true] at h
      injection h with h
      subst h
      simp [mapInsert]
    · simp only [mapFind, if_neg h2] at h
      simp [mapInsert, h2, ih h]

/-- Setting an index back to the value it already holds is the identity. -/
theorem set_of_getElem? {α : Type} :
    ∀ (l : List α) (i : Nat) (c : α), l[i]? = some c → l.set i c = l
  | [], i, c, h => by simp at h
  | a :: l, 0, c, h => by
    simp at h
    simp [List.set, h]
  | a :: l, i + 1, c, h => by
    simp at h
    simp [List.set]
    exact set_of_getElem? l i c h

/-! ## Lemmas about the JSON-pointer operations -/

theorem getPtr_append : ∀ (u w : List String) (d : Json),
    getPtr (u ++ w) d = (getPtr u d).bind (getPtr w)
  | [], w, d => rfl
  | seg :: u, w, d => by
    cases d with
    | obj m =>
      simp only [List.cons_append, getPtr]
      rcases hf : objFind m seg with _ | c
      · simp
      · simp [getPtr_append u w c]
    | arr a =>
      simp only [List.cons_append, getPtr]
      rcases hp : parseUsize seg with _ | i
      · simp
      · rcases hg : a[i]? with _ | c
        · simp [hg]
        · simp [hg, getPtr_append u w c]
    | null => rfl
    | bool b => rfl
    | num n => rfl
    | str s => rfl

/-- Round trip: a successful `set_by_pointer` makes the value readable at
the same segments. -/
theorem setPtr_get : ∀ (segs : List String) (doc v : Json),
    (setPtr v segs doc).1 = true → getPtr segs (setPtr v segs doc).2 = some v
  | [], _, _, _ => rfl
  | [seg], doc, v, h => by
    cases doc with
    | obj m =>
      simp only [setPtr, getPtr, objFind, objInsert]
      rw [mapFind_insert_self]
      rfl
    | arr a =>
      simp only [setPtr] at h ⊢
      rcases hp : parseUsize seg with _ | i
      · simp [hp] at h
      · simp only [hp] at h ⊢
        by_cases hlt : i < a.length
        · simp only [if_pos hlt] at h ⊢
          simp only [getPtr, hp]
          rw [List.getElem?_set_eq_of_lt v hlt]
          rfl
        · by_cases heq : i = a.length
          · simp only [if_neg hlt, if_pos heq] at h ⊢
            simp only [getPtr, hp, heq]
            rw [List.getElem?_concat_length]
            rfl
          · simp [if_neg hlt, if_neg heq] at h
    | null => simp [setPtr] at h
    | bool b => simp [setPtr] at h
    | num n => simp [setPtr] at h
    | str s => simp [setPtr] at h
  | seg :: next :: rest, doc, v, h => by
    cases doc with
    | obj m =>
      simp only [setPtr] at h ⊢
      simp only [getPtr, objFind, objInsert]
      rw [mapFind_insert_self]
      exact setPtr_get (next :: rest) _ v h
    | arr a =>
      simp only [setPtr] at h ⊢
      rcases hp : parseUsize seg with _ | i
      · simp [hp] at h
      · simp only [hp] at h ⊢
        simp only [getPtr, hp]
        have hlen : i < (if i < a.length then a
            else a ++ List.replicate (i + 1 - a.length) Json.null).length := by
          by_cases hlt : i < a.length
          · simpa [if_pos hlt] using hlt
          · simp only [if_neg hlt, List.length_append, List.length_replicate]
            omega
        rw [List.getElem?_set_eq_of_lt _ hlen]
        exact setPtr_get (next :: rest) _ v h
    | null =>
      simp only [setPtr] at h ⊢
      simp only [getPtr, objFind, mapFind, if_true]
      exact setPtr_get (next :: rest) _ v h
    | bool b =>
      simp only [setPtr] at h ⊢
      simp only [getPtr, objFind, mapFind, if_true]
      exact setPtr_get (next :: rest) _ v h
    | num n =>
      simp only [setPtr] at h ⊢
      simp only [getPtr, objFind, mapFind, if_true]
      exact setPtr_get (next :: rest) _ v h
    | str s =>
      simp only [setPtr] at h ⊢
      simp only [getPtr, objFind, mapFind, if_true]
      exact setPtr_get (next :: rest) _ v h

/-- Navigation: when `get_by_pointer` reaches `sub` along `pre`, a
`set_by_pointer` along `pre ++ rest` follows the same nodes; its success
flag is that of the set at `sub`, the subdocument read back at `pre` is
the one produced at `sub`, and when the set leaves `sub` unchanged the
whole document is unchanged. -/
theorem setPtr_nav : ∀ (pre : List String) (doc sub : Json) (rest : List String)
    (v : Json), rest ≠ [] → getPtr pre doc = some sub →
    (setPtr v (pre ++ rest) doc).1 = (setPtr v rest sub).1 ∧
    getPtr pre (setPtr v (pre ++ rest) doc).2 = some (setPtr v rest sub).2 ∧
    ((setPtr v rest sub).2 = sub → (setPtr v (pre ++ rest) doc).2 = doc)
  | [], doc, sub, rest, v, _, hget => by
    simp only [getPtr, Option.some.injEq] at hget
    subst hget
    exact ⟨rfl, rfl, fun hh => hh⟩
  | seg :: pre2, doc, sub, rest, v, hne, hget => by
    rcases hpr : pre2 ++ rest with _ | ⟨next, tail⟩
    · exact absurd (List.append_eq_nil.mp hpr).2 hne
    · cases doc with
      | obj m =>
        simp only [getPtr] at hget
        rcases hf : objFind m seg with _ | c
        · rw [hf] at hget; simp at hget
        · rw [hf] at hget
          simp only [Option.some_bind] at hget
          have ih := setPtr_nav pre2 c sub rest v hne hget
          rw [hpr] at ih
          simp only [List.cons_append, hpr, setPtr, hf]
          refine ⟨ih.1, ?_, ?_⟩
          · simp only [getPtr, objFind, objInsert]
            rw [mapFind_insert_self]
            simp only [Option.some_bind]
            exact ih.2.1
          · intro hh
            rw [ih.2.2 hh]
            have : objInsert m seg c = m := mapInsert_of_find hf
            rw [this]
      | arr a =>
        simp only [getPtr] at hget
        rcases hp : parseUsize seg with _ | i
        · rw [hp] at hget; simp at hget
        · simp only [hp] at hget
          rcases hg : a[i]? with _ | c
          · rw [hg] at hget; simp at hget
          · rw [hg] at hget
            simp only [Option.some_bind] at hget
            have hlt : i < a.length := by
              rcases List.getElem?_eq_some.mp hg with ⟨hl, _⟩
              exact hl
            have ih := setPtr_nav pre2 c sub rest v hne hget
            rw [hpr] at ih
            simp only [List.cons_append, hpr, setPtr, hp, if_pos hlt]
            have hgd : a.getD i Json.null = c := by
              rw [List.getD_eq_getElem?_getD, hg]
              rfl
            rw [hgd]
            refine ⟨ih.1, ?_, ?_⟩
            · simp only [getPtr, hp]
              rw [List.getElem?_set_eq_of_lt _ (by simpa using hlt)]
              simp only [Option.some_bind]
              exact ih.2.1
            · intro hh
              rw [ih.2.2 hh, set_of_getElem? a i c hg]
      | null => simp [getPtr] at hget
      | bool b => simp [getPtr] at hget
      | num n => simp [getPtr] at hget
      | str s => simp [getPtr] at hget

/-! ## Dirty-set helper lemmas -/

theorem isPrefixOf_self {α : Type} [BEq α] [LawfulBEq α] :
    ∀ l : List α, l.isPrefixOf l = true
  | [] => rfl
  | a :: l => by simp [isPrefixOf_self l]

theorem strStartsWith_self (p : String) : strStartsWith p p = true :=
  isPrefixOf_self p.data

theorem insertPath_mem (l : List String) (p : String) : p ∈ insertPath l p := by
  unfold insertPath
  by_cases h : l.contains p
  · rw [if_pos h]
    exact List.elem_iff.mp h
  · rw [if_neg h]
    exact List.mem_cons_self p l

theorem isDirty_of_mem_startsWith (m : DataModel) (p dp : String)
    (hmem : dp ∈ m.dirtyPaths)
    (hsw : strStartsWith p dp = true ∨ strStartsWith dp p = true) :
    m.isDirty p = true := by
  unfold DataModel.isDirty
  by_cases hc : m.dirtyPaths.contains p
  · rw [if_pos hc]
  · rw [if_neg hc]
    refine List.any_eq_true.mpr ⟨dp, hmem, ?_⟩
    rcases hsw with h | h <;> simp [h]

/-! ## Claim theorems -/

/-- C1 (corrected, counterexample): on a fresh model `set("/items/1", v)`
is a silent no-op — the claimed round trip `get(p) = Some(v)` fails and
the version does not increase. -/
theorem c1_counterexample :
    ((DataModel.new.set "/items/1" (.str "x")).get "/items/1") = none ∧
    (DataModel.new.set "/items/1" (.str "x")).version = DataModel.new.version :=
  ⟨rfl, rfl⟩

/-- C1 (amended): `set(p, v)` either leaves the version unchanged (a
silent no-op) or increments it by exactly one, and whenever the version
changed (the mutation succeeded) `get(p)` returns `Some(v)`. -/
theorem c1_set_get_roundtrip (m : DataModel) (p : String) (v : Json) :
    ((m.set p v).version = m.version ∨ (m.set p v).version = m.version + 1) ∧
    ((m.set p v).version ≠ m.version →
      (m.set p v).get p = some v ∧ (m.set p v).version = m.version + 1) := by
  by_cases hflag : (setPtr v (parsePointer p) m.data).1 = true
  · constructor
    · right
      simp [DataModel.set, hflag]
    · intro _
      constructor
      · show getPtr (parsePointer p) (m.set p v).data = some v
        have hdata : (m.set p v).data = (setPtr v (parsePointer p) m.data).2 := by
          simp [DataModel.set, hflag]
        rw [hdata]
        exact setPtr_get _ _ _ hflag
      · simp [DataModel.set, hflag]
  · have hf : (setPtr v (parsePointer p) m.data).1 = false :=
      Bool.not_eq_true _ ▸ Bool.of_not_eq_true hflag
    constructor
    · left
      simp [DataModel.set, hf]
    · intro hne
      exact absurd (by simp [DataModel.set, hf]) hne

/-- C1 witness: a concrete successful set satisfying the amended claim. -/
theorem c1_witness :
    ((DataModel.new.set "/name" (.str "Alice")).version ≠ DataModel.new.version) ∧
    ((DataModel.new.set "/name" (.str "Alice")).get "/name" = some (.str "Alice") ∧
      (DataModel.new.set "/name" (.str "Alice")).version = DataModel.new.version + 1) :=
  ⟨by decide,
   (c1_set_get_roundtrip DataModel.new "/name" (.str "Alice")).2 (by decide)⟩

/-- C2 (confirmed): setting a final array index equal to the length
appends, an index below the length overwrites in place, and an index
beyond the length is a complete no-op (document, dirty set and version
all unchanged). -/
theorem c2_array_set (m : DataModel) (p : String) (pre : List String)
    (s : String) (i : Nat) (a : List Json) (v : Json)
    (hseg : parsePointer p = pre ++ [s])
    (hidx : parseUsize s = some i)
    (harr : getPtr pre m.data = some (.arr a)) :
    (i = a.length →
      (m.set p v).version = m.version + 1 ∧
      getPtr pre (m.set p v).data = some (.arr (a ++ [v])) ∧
      (m.set p v).get p = some v ∧
      (m.set p v).dirtyPaths = insertPath m.dirtyPaths p) ∧
    (i < a.length →
      (m.set p v).version = m.version + 1 ∧
      getPtr pre (m.set p v).data = some (.arr (a.set i v)) ∧
      (m.set p v).get p = some v ∧
      (m.set p v).dirtyPaths = insertPath m.dirtyPaths p) ∧
    (i > a.length → m.set p v = m) := by
  have nav := setPtr_nav pre m.data (.arr a) [s] v (by simp) harr
  refine ⟨?_, ?_, ?_⟩
  · intro heq
    have hr1 : setPtr v [s] (.arr a) = (true, .arr (a ++ [v])) := by
      simp [setPtr, hidx, heq]
    have hflag : (setPtr v (parsePointer p) m.data).1 = true := by
      rw [hseg, nav.1, hr1]
    have hdata : (m.set p v).data = (setPtr v (parsePointer p) m.data).2 := by
      simp [DataModel.set, hflag]
    refine ⟨by simp [DataModel.set, hflag], ?_, ?_, by simp [DataModel.set, hflag]⟩
    · rw [hdata, hseg]
      have h2 := nav.2.1
      rw [hr1] at h2
      exact h2
    · show getPtr (parsePointer p) (m.set p v).data = some v
      rw [hdata]
      exact setPtr_get _ _ _ hflag
  · intro hlt
    have hr1 : setPtr v [s] (.arr a) = (true, .arr (a.set i v)) := by
      simp [setPtr, hidx, hlt]
    have hflag : (setPtr v (parsePointer p) m.data).1 = true := by
      rw [hseg, nav.1, hr1]
    have hdata : (m.set p v).data = (setPtr v (parsePointer p) m.data).2 := by
      simp [DataModel.set, hflag]
    refine ⟨by simp [DataModel.set, hflag], ?_, ?_, by simp [DataModel.set, hflag]⟩
    · rw [hdata, hseg]
      have h2 := nav.2.1
      rw [hr1] at h2
      exact h2
    · show getPtr (parsePointer p) (m.set p v).data = some v
      rw [hdata]
      exact setPtr_get _ _ _ hflag
  · intro hgt
    have hr1 : setPtr v [s] (.arr a) = (false, .arr a) := by
      simp only [setPtr, hidx]
      rw [if_neg (by omega), if_neg (by omega)]
    have hflag : (setPtr v (parsePointer p) m.data).1 = false := by
      rw [hseg, nav.1, hr1]
    have hdoc : (setPtr v (parsePointer p) m.data).2 = m.data := by
      rw [hseg]
      refine nav.2.2 ?_
      rw [hr1]
    show m.set p v = m
    simp only [DataModel.set, hflag, Bool.false_eq_true, if_false, hdoc]

/-- C2 witness: on the document `{"items": [1, 2]}` the three index
regimes behave as claimed at indices 2 (append) and 5 (no-op). -/
theorem c2_witness :
    (((DataModel.withData (.obj [("items", .arr [.num 1, .num 2])])).set
        "/items/2" (.str "x")).version = 1 ∧
      getPtr ["items"] ((DataModel.withData
          (.obj [("items", .arr [.num 1, .num 2])])).set
        "/items/2" (.str "x")).data =
        some (.arr [.num 1, .num 2, .str "x"])) ∧
    ((DataModel.withData (.obj [("items", .arr [.num 1, .num 2])])).set
        "/items/5" (.str "x")) =
      DataModel.withData (.obj [("items", .arr [.num 1, .num 2])]) := by
  have h := c2_array_set (DataModel.withData
      (.obj [("items", .arr [.num 1, .num 2])]))
    "/items/2" ["items"] "2" 2 [.num 1, .num 2] (.str "x") rfl rfl rfl
  have h5 := c2_array_set (DataModel.withData
      (.obj [("items", .arr [.num 1, .num 2])]))
    "/items/5" ["items"] "5" 5 [.num 1, .num 2] (.str "x") rfl rfl rfl
  have ha := h.1 rfl
  exact ⟨⟨ha.1, ha.2.1⟩, h5.2.2 (by decide)⟩

/-- C3 (corrected, counterexample): on a model whose document is the
scalar `5`, `set("/foo", v)` is a silent no-op, so `is_dirty("/foo")` is
still false immediately after the `set` call. -/
theorem c3_counterexample :
    ((DataModel.withData (.num 5)).set "/foo" (.str "x")).isDirty "/foo" = false ∧
    ((DataModel.withData (.num 5)).set "/foo" (.str "x")).version =
      (DataModel.withData (.num 5)).version :=
  ⟨rfl, rfl⟩

/-- C3 (amended): `is_dirty(p)` holds iff `p` equals a recorded dirty
path or is related to one by string prefix in either direction;
`is_dirty(p)` is true immediately after a `set(p, _)` that mutates the
model (increments the version); after a mutating `set("/foo", _)`,
`is_dirty("/foobar")` is true even though `/foobar` is not a JSON-Pointer
descendant of `/foo`; and after `clear_dirty()` every path is clean. -/
theorem c3_is_dirty (m : DataModel) (p : String) :
    (m.isDirty p = true ↔ p ∈ m.dirtyPaths ∨ ∃ dp ∈ m.dirtyPaths,
      strStartsWith p dp = true ∨ strStartsWith dp p = true) ∧
    (∀ v, (m.set p v).version ≠ m.version → (m.set p v).isDirty p = true) ∧
    (∀ v, (m.set "/foo" v).version ≠ m.version →
      (m.set "/foo" v).isDirty "/foobar" = true) ∧
    (m.clearDirty.isDirty p = false) := by
  refine ⟨?_, ?_, ?_, ?_⟩
  · unfold DataModel.isDirty
    by_cases hc : m.dirtyPaths.contains p
    · rw [if_pos hc]
      simp only [true_iff]
      exact Or.inl (List.elem_iff.mp hc)
    · rw [if_neg hc]
      constructor
      · intro h
        rcases List.any_eq_true.mp h with ⟨dp, hmem, hrel⟩
        exact Or.inr ⟨dp, hmem, by simpa using hrel⟩
      · intro h
        rcases h with hmem | ⟨dp, hmem, hrel⟩
        · exact absurd (List.elem_iff.mpr hmem) hc
        · refine List.any_eq_true.mpr ⟨dp, hmem, ?_⟩
          simpa using hrel
  · intro v hver
    have hflag : (setPtr v (parsePointer p) m.data).1 = true := by
      by_cases hh : (setPtr v (parsePointer p) m.data).1 = true
      · exact hh
      · exact absurd (by simp [DataModel.set,
          Bool.not_eq_true _ ▸ Bool.of_not_eq_true hh]) hver
    have hdirty : (m.set p v).dirtyPaths = insertPath m.dirtyPaths p := by
      simp [DataModel.set, hflag]
    refine isDirty_of_mem_startsWith _ p p ?_ ?_
    · rw [hdirty]
      exact insertPath_mem _ _
    · left
      exact strStartsWith_self p
  · intro v hver
    have hflag : (setPtr v (parsePointer "/foo") m.data).1 = true := by
      by_cases hh : (setPtr v (parsePointer "/foo") m.data).1 = true
      · exact hh
      · exact absurd (by simp [DataModel.set,
          Bool.not_eq_true _ ▸ Bool.of_not_eq_true hh]) hver
    have hdirty : (m.set "/foo" v).dirtyPaths = insertPath m.dirtyPaths "/foo" := by
      simp [DataModel.set, hflag]
    refine isDirty_of_mem_startsWith _ "/foobar" "/foo" ?_ ?_
    · rw [hdirty]
      exact insertPath_mem _ _
    · left
      decide
  · unfold DataModel.clearDirty DataModel.isDirty
    rfl

/-- C3 witness: a concrete mutating set leaves the exact path and the
string-prefix relative `/foobar` dirty, and `clear_dirty` resets. -/
theorem c3_witness :
    ((DataModel.new.set "/foo" (.str "x")).version ≠ DataModel.new.version) ∧
    ((DataModel.new.set "/foo" (.str "x")).isDirty "/foo" = true) ∧
    ((DataModel.new.set "/foo" (.str "x")).isDirty "/foobar" = true) ∧
    (DataModel.new.clearDirty.isDirty "/foo" = false) :=
  ⟨by decide,
   (c3_is_dirty DataModel.new "/foo").2.1 (.str "x") (by decide),
   (c3_is_dirty DataModel.new "/foo").2.2.1 (.str "x") (by decide),
   (c3_is_dirty DataModel.new "/foo").2.2.2⟩

/-- C4 (confirmed): `resolve_path` uses absolute paths verbatim, prepends
`scope + "/"` to relative paths when a scope is given, and otherwise
turns a relative path into `"/" + path`. -/
theorem c4_resolve_path (p : String) (scope : Option String) :
    (strStartsWith p "/" = true → resolvePath p scope = p) ∧
    (strStartsWith p "/" = false → ∀ sc, scope = some sc →
      resolvePath p scope = sc ++ "/" ++ p) ∧
    (strStartsWith p "/" = false → scope = none → resolvePath p scope = "/" ++ p) := by
  refine ⟨?_, ?_, ?_⟩
  · intro h
    simp [resolvePath, h]
  · intro h sc hsc
    subst hsc
    simp [resolvePath, h]
  · intro h hsc
    subst hsc
    simp [resolvePath, h]

/-- C4 witness: the three branches at concrete inputs. -/
theorem c4_witness :
    resolvePath "/abs" (some "/items/0") = "/abs" ∧
    resolvePath "name" (some "/items/0") = "/items/0" ++ "/" ++ "name" ∧
    resolvePath "name" none = "/" ++ "name" :=
  ⟨(c4_resolve_path "/abs" (some "/items/0")).1 (by decide),
   (c4_resolve_path "name" (some "/items/0")).2.1 (by decide) _ rfl,
   (c4_resolve_path "name" none).2.2 (by decide) rfl⟩

/-! ## Delete lemmas and C7 -/

theorem mapFind_eq_none_iff {α : Type} :
    ∀ (m : List (String × α)) (k : String),
      mapFind m k = none ↔ k ∉ m.map Prod.fst
  | [], k => by simp [mapFind]
  | (k2, w) :: rest, k => by
    by_cases h2 : k2 = k
    · subst h2
      simp [mapFind]
    · simp only [mapFind, if_neg h2, List.map_cons, List.mem_cons]
      rw [mapFind_eq_none_iff rest k]
      constructor
      · intro h hh
        rcases hh with hh | hh
        · exact h2 hh.symm
        · exact h hh
      · intro h
        exact fun hh => h (Or.inr hh)

theorem mapFind_erase_self {α : Type} :
    ∀ (m : List (String × α)) (k : String),
      (m.map Prod.fst).Nodup → mapFind (mapErase m k) k = none
  | [], k, _ => rfl
  | (k2, w) :: rest, k, hnd => by
    simp only [List.map_cons, List.nodup_cons] at hnd
    by_cases h2 : k2 = k
    · subst h2
      simp only [mapErase, if_pos rfl]
      exact (mapFind_eq_none_iff rest k2).mpr hnd.1
    · simp only [mapErase, if_neg h2, mapFind, if_neg h2]
      exact mapFind_erase_self rest k hnd.2

/-- A failing `get_by_pointer` forces `delete_by_pointer` to fail too:
the two walks take the same branches. -/
theorem delPtr_none_of_get_none : ∀ (segs : List String) (doc : Json),
    segs ≠ [] → getPtr segs doc = none → delPtr segs doc = none
  | [], _, h, _ => absurd rfl h
  | [last], doc, _, hget => by
    cases doc with
    | obj m =>
      simp only [getPtr] at hget
      rcases hf : objFind m last with _ | c
      · simp [delPtr, hf]
      · rw [hf] at hget
        simp [getPtr] at hget
    | arr a =>
      simp only [getPtr] at hget
      rcases hp : parseUsize last with _ | i
      · simp [delPtr, hp]
      · simp only [hp] at hget
        rcases hg : a[i]? with _ | c
        · have hge : a.length ≤ i := List.getElem?_eq_none_iff.mp hg
          simp [delPtr, hp, Nat.not_lt.mpr hge]
        · rw [hg] at hget
          simp [getPtr] at hget
    | null => simp [delPtr]
    | bool b => simp [delPtr]
    | num n => simp [delPtr]
    | str s => simp [delPtr]
  | seg :: next :: rest, doc, _, hget => by
    cases doc with
    | obj m =>
      simp only [getPtr] at hget
      rcases hf : objFind m seg with _ | c
      · simp [delPtr, hf]
      · rw [hf] at hget
        simp only [Option.some_bind] at hget
        have ih := delPtr_none_of_get_none (next :: rest) c (by simp) hget
        simp [delPtr, hf, ih]
    | arr a =>
      simp only [getPtr] at hget
      rcases hp : parseUsize seg with _ | i
      · simp [delPtr, hp]
      · simp only [hp] at hget
        rcases hg : a[i]? with _ | c
        · simp [delPtr, hp, hg]
        · rw [hg] at hget
          simp only [Option.some_bind] at hget
          have ih := delPtr_none_of_get_none (next :: rest) c (by simp) hget
          simp [delPtr, hp, hg, ih]
    | null => simp [delPtr]
    | bool b => simp [delPtr]
    | num n => simp [delPtr]
    | str s => simp [delPtr]

/-- Navigation for `delete_by_pointer`: reaching `sub` along `pre`, the
delete along `pre ++ rest` fails exactly when the delete at `sub` fails,
and on success the subdocument read back at `pre` is the one obtained at
`sub`. -/
theorem delPtr_nav : ∀ (pre : List String) (doc sub : Json) (rest : List String),
    rest ≠ [] → getPtr pre doc = some sub →
    (delPtr rest sub = none → delPtr (pre ++ rest) doc = none) ∧
    (∀ sub2, delPtr rest sub = some sub2 →
      ∃ doc2, delPtr (pre ++ rest) doc = some doc2 ∧ getPtr pre doc2 = some sub2)
  | [], doc, sub, rest, _, hget => by
    simp only [getPtr, Option.some.injEq] at hget
    subst hget
    exact ⟨fun h => h, fun sub2 h => ⟨sub2, h, rfl⟩⟩
  | seg :: pre2, doc, sub, rest, hne, hget => by
    rcases hpr : pre2 ++ rest with _ | ⟨next, tail⟩
    · exact absurd (List.append_eq_nil.mp hpr).2 hne
    · cases doc with
      | obj m =>
        simp only [getPtr] at hget
        rcases hf : objFind m seg with _ | c
        · rw [hf] at hget; simp at hget
        · rw [hf] at hget
          simp only [Option.some_bind] at hget
          have ih := delPtr_nav pre2 c sub rest hne hget
          rw [hpr] at ih
          constructor
          · intro hdel
            have h0 := ih.1 hdel
            simp only [List.cons_append, hpr, delPtr, hf, Option.some_bind, h0]
            rfl
          · intro sub2 hdel
            rcases ih.2 sub2 hdel with ⟨c2, hc2, hget2⟩
            refine ⟨.obj (objInsert m seg c2), ?_, ?_⟩
            · simp only [List.cons_append, hpr, delPtr, hf, Option.some_bind,
                hc2]
              rfl
            · simp only [getPtr, objFind, objInsert]
              rw [mapFind_insert_self]
              simpa using hget2
      | arr a =>
        simp only [getPtr] at hget
        rcases hp : parseUsize seg with _ | i
        · rw [hp] at hget; simp at hget
        · simp only [hp] at hget
          rcases hg : a[i]? with _ | c
          · rw [hg] at hget; simp at hget
          · rw [hg] at hget
            simp only [Option.some_bind] at hget
            have hlt : i < a.length := by
              rcases List.getElem?_eq_some.mp hg with ⟨hl, _⟩
              exact hl
            have ih := delPtr_nav pre2 c sub rest hne hget
            rw [hpr] at ih
            constructor
            · intro hdel
              have h0 := ih.1 hdel
              simp only [List.cons_append, hpr, delPtr, hp, hg,
                Option.some_bind, h0]
              rfl
            · intro sub2 hdel
              rcases ih.2 sub2 hdel with ⟨c2, hc2, hget2⟩
              refine ⟨.arr (a.set i c2), ?_, ?_⟩
              · simp only [List.cons_append, hpr, delPtr, hp, hg,
                  Option.some_bind, hc2]
                rfl
              · simp only [getPtr, hp]
                rw [List.getElem?_set_eq_of_lt _ (by simpa using hlt)]
                simpa using hget2
      | null => simp [getPtr] at hget
      | bool b => simp [getPtr] at hget
      | num n => simp [getPtr] at hget
      | str s => simp [getPtr] at hget

/-- C7 (corrected, counterexample): deleting index 0 of the two-element
array at `/a` succeeds, but `get("/a/0")` afterwards returns the shifted
former second element, not `None`. -/
theorem c7_counterexample :
    ((DataModel.withData (.obj [("a", .arr [.num 1, .num 2])])).delete
      "/a/0").2 = true ∧
    ((DataModel.withData (.obj [("a", .arr [.num 1, .num 2])])).delete
      "/a/0").1.get "/a/0" = some (.num 2) :=
  ⟨rfl, rfl⟩

/-- C7 (amended): after a successful `delete(p)` whose parent is an
object, `get(p)` returns `None`; when the parent is an array the indexed
element is removed and later elements shift down one index; deleting the
root path resets the document to the empty object; and deleting a path
not present in the document returns `false`, mutates nothing, and leaves
the version counter unchanged. -/
theorem c7_delete (m : DataModel) (p : String) :
    (∀ pre last fields, parsePointer p = pre ++ [last] →
      getPtr pre m.data = some (.obj fields) →
      (fields.map Prod.fst).Nodup →
      (objFind fields last).isSome = true →
      (m.delete p).2 = true ∧ (m.delete p).1.get p = none ∧
      (m.delete p).1.version = m.version + 1) ∧
    (∀ pre last i a, parsePointer p = pre ++ [last] →
      getPtr pre m.data = some (.arr a) →
      parseUsize last = some i → i < a.length →
      (m.delete p).2 = true ∧
      getPtr pre (m.delete p).1.data = some (.arr (a.eraseIdx i)) ∧
      (m.delete p).1.version = m.version + 1) ∧
    (m.get p = none → m.delete p = (m, false)) ∧
    ((m.delete "/").2 = true ∧ (m.delete "/").1.data = .obj []) := by
  refine ⟨?_, ?_, ?_, ?_⟩
  · intro pre last fields hseg hobj hnd hsome
    have hdel1 : delPtr [last] (.obj fields) =
        some (.obj (objErase fields last)) := by
      simp [delPtr, hsome]
    have nav := (delPtr_nav pre m.data (.obj fields) [last] (by simp) hobj).2
      _ hdel1
    rcases nav with ⟨doc2, hdoc2, hget2⟩
    have hdel : delPtr (parsePointer p) m.data = some doc2 := by
      rw [hseg]; exact hdoc2
    refine ⟨by simp [DataModel.delete, hdel], ?_, by simp [DataModel.delete, hdel]⟩
    have hdata : (m.delete p).1.data = doc2 := by
      simp [DataModel.delete, hdel]
    show getPtr (parsePointer p) (m.delete p).1.data = none
    rw [hdata, hseg, getPtr_append, hget2]
    simp only [Option.some_bind, getPtr, objFind, objErase]
    rw [mapFind_erase_self fields last hnd]
    rfl
  · intro pre last i a hseg harr hidx hlt
    have hdel1 : delPtr [last] (.arr a) = some (.arr (a.eraseIdx i)) := by
      simp [delPtr, hidx, hlt]
    have nav := (delPtr_nav pre m.data (.arr a) [last] (by simp) harr).2
      _ hdel1
    rcases nav with ⟨doc2, hdoc2, hget2⟩
    have hdel : delPtr (parsePointer p) m.data = some doc2 := by
      rw [hseg]; exact hdoc2
    refine ⟨by simp [DataModel.delete, hdel], ?_, by simp [DataModel.delete, hdel]⟩
    have hdata : (m.delete p).1.data = doc2 := by
      simp [DataModel.delete, hdel]
    rw [hdata]
    exact hget2
  · intro hget
    have hne : parsePointer p ≠ [] := by
      intro h0
      rw [DataModel.get, h0] at hget
      simp [getPtr] at hget
    have hdel : delPtr (parsePointer p) m.data = none :=
      delPtr_none_of_get_none _ _ hne hget
    simp [DataModel.delete, hdel]
  · constructor
    · rfl
    · simp [DataModel.delete, parsePointer, delPtr]

/-- C7 witness: object-key delete, array-element delete, nonexistent
path, and root delete on concrete models. -/
theorem c7_witness :
    (((DataModel.withData (.obj [("name", .str "A")])).delete "/name").2 = true ∧
      ((DataModel.withData (.obj [("name", .str "A")])).delete
        "/name").1.get "/name" = none) ∧
    (getPtr ["a"] ((DataModel.withData
        (.obj [("a", .arr [.num 1, .num 2])])).delete "/a/0").1.data =
      some (.arr [.num 2])) ∧
    ((DataModel.withData (.obj [("name", .str "A")])).delete "/zzz" =
      (DataModel.withData (.obj [("name", .str "A")]), false)) := by
  have h1 := (c7_delete (DataModel.withData (.obj [("name", .str "A")]))
    "/name").1 [] "name" [("name", .str "A")] rfl rfl (by decide) (by decide)
  have h2 := (c7_delete (DataModel.withData
    (.obj [("a", .arr [.num 1, .num 2])])) "/a/0").2.1 ["a"] "0" 0
    [.num 1, .num 2] rfl rfl rfl (by decide)
  have h3 := (c7_delete (DataModel.withData (.obj [("name", .str "A")]))
    "/zzz").2.2.1 rfl
  exact ⟨⟨h1.1, h1.2.1⟩, by simpa using h2.2.1, h3⟩

/-! ## Processor lemmas and C9, C10, C5 -/

theorem getOrCreate_isSome (models : List (String × DataModel)) (id : String) :
    (mapFind (getOrCreate models id) id).isSome = true := by
  unfold getOrCreate
  rcases h : mapFind models id with _ | dm
  · simp [mapFind_insert_self]
  · simp [h]

/-- Every message except `UserAction` emits exactly one event. -/
theorem processMessage_events_ne_nil (p : A2uiMessageProcessor)
    (m : A2uiMessage) (h : ∀ ua, m ≠ .userAction ua) :
    (p.processMessage m).2 ≠ [] := by
  cases m with
  | beginRendering msg =>
    simp [A2uiMessageProcessor.processMessage,
      A2uiMessageProcessor.processBeginRendering]
  | surfaceUpdate msg =>
    simp [A2uiMessageProcessor.processMessage,
      A2uiMessageProcessor.processSurfaceUpdate]
  | dataModelUpdate msg =>
    simp [A2uiMessageProcessor.processMessage,
      A2uiMessageProcessor.processDataModelUpdate]
  | deleteSurface msg =>
    simp [A2uiMessageProcessor.processMessage,
      A2uiMessageProcessor.processDeleteSurface]
  | userAction ua => exact absurd rfl (h ua)

/-- C9 (confirmed): a `DataModelUpdate` addressed to a surface id with no
surface creates the data model for that id and emits `DataModelUpdated`,
but creates no surface: afterwards `get_data_model` is `Some` while
`get_surface` is still `None`. -/
theorem c9_data_model_update_no_surface (p : A2uiMessageProcessor)
    (msg : DataModelUpdate) (hns : p.getSurface msg.surfaceId = none) :
    ((p.processMessage (.dataModelUpdate msg)).1.getDataModel
      msg.surfaceId).isSome = true ∧
    (p.processMessage (.dataModelUpdate msg)).1.getSurface msg.surfaceId =
      none ∧
    (p.processMessage (.dataModelUpdate msg)).2 =
      [.dataModelUpdated msg.surfaceId
        (msg.contents.map fun c => contentFullPath msg.path c.key)] := by
  have hsurf : mapFind p.surfaces msg.surfaceId = none := hns
  refine ⟨?_, ?_, ?_⟩
  · show (mapFind _ msg.surfaceId).isSome = true
    simp only [A2uiMessageProcessor.processMessage,
      A2uiMessageProcessor.processDataModelUpdate]
    rcases h2 : mapFind (getOrCreate p.dataModels msg.surfaceId)
        msg.surfaceId with _ | dm
    · have := getOrCreate_isSome p.dataModels msg.surfaceId
      rw [h2] at this
      simp at this
    · simp [h2, mapFind_insert_self]
  · show mapFind _ msg.surfaceId = none
    simp only [A2uiMessageProcessor.processMessage,
      A2uiMessageProcessor.processDataModelUpdate, hsurf]
  · rfl

/-- C9 witness: a concrete update for the unknown surface `"s"`. -/
theorem c9_witness :
    ((A2uiMessageProcessor.new.processMessage (.dataModelUpdate
      { surfaceId := "s", path := "/",
        contents := [.mk "name" (.valueString "Alice")] })).1.getDataModel
      "s").isSome = true ∧
    (A2uiMessageProcessor.new.processMessage (.dataModelUpdate
      { surfaceId := "s", path := "/",
        contents := [.mk "name" (.valueString "Alice")] })).1.getSurface
      "s" = none ∧
    (A2uiMessageProcessor.new.processMessage (.dataModelUpdate
      { surfaceId := "s", path := "/",
        contents := [.mk "name" (.valueString "Alice")] })).2 =
      [.dataModelUpdated "s" ["/name"]] := by
  have h := c9_data_model_update_no_surface A2uiMessageProcessor.new
    { surfaceId := "s", path := "/",
      contents := [.mk "name" (.valueString "Alice")] } rfl
  exact ⟨h.1, h.2.1, h.2.2⟩

/-- C10 (confirmed): `BeginRendering` for a surface id that already has a
data model replaces the surface with a fresh one (given root and styles,
empty component map, redraw flag set) and leaves the existing data model
exactly as it was — same document, dirty paths, and version. -/
theorem c10_begin_rendering_preserves_data_model (p : A2uiMessageProcessor)
    (msg : BeginRendering) (dm : DataModel)
    (hdm : p.getDataModel msg.surfaceId = some dm) :
    (p.processMessage (.beginRendering msg)).1.getDataModel msg.surfaceId =
      some dm ∧
    (p.processMessage (.beginRendering msg)).1.getSurface msg.surfaceId =
      some (Surface.new msg.surfaceId msg.root msg.styles) ∧
    (p.processMessage (.beginRendering msg)).2 =
      [.surfaceCreated msg.surfaceId] := by
  have hfind : mapFind p.dataModels msg.surfaceId = some dm := hdm
  refine ⟨?_, ?_, rfl⟩
  · show mapFind _ msg.surfaceId = some dm
    simp only [A2uiMessageProcessor.processMessage,
      A2uiMessageProcessor.processBeginRendering, getOrCreate, hfind]
  · show mapFind _ msg.surfaceId = some _
    simp only [A2uiMessageProcessor.processMessage,
      A2uiMessageProcessor.processBeginRendering]
    exact mapFind_insert_self _ _ _

/-- C10 witness: rendering twice keeps the first surface's data model
(version and dirty paths included) while replacing the surface. -/
theorem c10_witness :
    (((A2uiMessageProcessor.new.processMessage (.dataModelUpdate
        { surfaceId := "s", path := "/",
          contents := [.mk "name" (.valueString "Alice")] })).1.processMessage
      (.beginRendering
        { surfaceId := "s", root := "r", styles := none })).1.getDataModel
      "s" = some (DataModel.new.set "/name" (.str "Alice"))) ∧
    (((A2uiMessageProcessor.new.processMessage (.dataModelUpdate
        { surfaceId := "s", path := "/",
          contents := [.mk "name" (.valueString "Alice")] })).1.processMessage
      (.beginRendering
        { surfaceId := "s", root := "r", styles := none })).1.getSurface
      "s" = some (Surface.new "s" "r" none)) := by
  have h := c10_begin_rendering_preserves_data_model
    (A2uiMessageProcessor.new.processMessage (.dataModelUpdate
      { surfaceId := "s", path := "/",
        contents := [.mk "name" (.valueString "Alice")] })).1
    { surfaceId := "s", root := "r", styles := none }
    (DataModel.new.set "/name" (.str "Alice")) rfl
  exact ⟨h.1, h.2.1⟩

/-- C5 (corrected, counterexample): an array whose two well-formed
elements are `userAction` messages and whose middle element is malformed
makes `process_json` return an error — the two actions are applied
(queued), but no events are returned, so the call fails the batch. -/
theorem c5_counterexample :
    (decodeA2uiMessage (.obj [("userAction", .obj [("surfaceId", .str "s"),
      ("action", .obj [("name", .str "a")])])])).isSome = true ∧
    decodeA2uiMessage (.str "bad") = none ∧
    (A2uiMessageProcessor.new.processJsonValue
      (.arr [.obj [("userAction", .obj [("surfaceId", .str "s"),
          ("action", .obj [("name", .str "a")])])],
        .str "bad",
        .obj [("userAction", .obj [("surfaceId", .str "s"),
          ("action", .obj [("name", .str "a")])])]])).2 = none ∧
    (A2uiMessageProcessor.new.processJsonValue
      (.arr [.obj [("userAction", .obj [("surfaceId", .str "s"),
          ("action", .obj [("name", .str "a")])])],
        .str "bad",
        .obj [("userAction", .obj [("surfaceId", .str "s"),
          ("action", .obj [("name", .str "a")])])]])).1.pendingActions.length
      = 2 :=
  ⟨rfl, rfl, rfl, rfl⟩

/-- C5 (amended): for a valid-JSON array of three elements whose second
does not match the message schema while the first and third do, and at
least one of the two valid messages is not a `userAction`, `process_json`
applies the first and third messages in order and returns exactly their
events; the malformed sibling is skipped without failing the batch. -/
theorem c5_process_json_salvages (p : A2uiMessageProcessor)
    (v1 v2 v3 : Json) (m1 m3 : A2uiMessage)
    (h1 : decodeA2uiMessage v1 = some m1)
    (h2 : decodeA2uiMessage v2 = none)
    (h3 : decodeA2uiMessage v3 = some m3)
    (hev : (∀ ua, m1 ≠ .userAction ua) ∨ (∀ ua, m3 ≠ .userAction ua)) :
    (p.processJsonValue (.arr [v1, v2, v3])).2 =
      some ((p.processMessage m1).2 ++
        ((p.processMessage m1).1.processMessage m3).2) ∧
    (p.processJsonValue (.arr [v1, v2, v3])).1 =
      ((p.processMessage m1).1.processMessage m3).1 := by
  have hall : A2uiMessageProcessor.decodeAll [v1, v2, v3] = none := by
    simp [A2uiMessageProcessor.decodeAll, h1, h2]
  have heach : A2uiMessageProcessor.processEach p [v1, v2, v3] =
      (((p.processMessage m1).1.processMessage m3).1,
        (p.processMessage m1).2 ++
          ((p.processMessage m1).1.processMessage m3).2) := by
    simp [A2uiMessageProcessor.processEach, List.foldl, h1, h2, h3]
  have hne : ((p.processMessage m1).2 ++
      ((p.processMessage m1).1.processMessage m3).2) ≠ [] := by
    intro hnil
    rcases List.append_eq_nil.mp hnil with ⟨hn1, hn3⟩
    rcases hev with hm | hm
    · exact processMessage_events_ne_nil p m1 hm hn1
    · exact processMessage_events_ne_nil (p.processMessage m1).1 m3 hm hn3
  constructor
  all_goals
    simp only [A2uiMessageProcessor.processJsonValue, hall, heach]
    rw [List.isEmpty_eq_false_iff_exists_mem.mpr
      (List.exists_mem_of_ne_nil _ hne)]
    rfl


/-- C5 witness: `beginRendering` and `deleteSurface` survive a malformed
middle element. -/
theorem c5_witness :
    (A2uiMessageProcessor.new.processJsonValue
      (.arr [.obj [("beginRendering", .obj [("surfaceId", .str "main"),
          ("root", .str "root")])],
        .str "bad",
        .obj [("deleteSurface", .obj [("surfaceId", .str "main")])]])).2 =
      some [.surfaceCreated "main", .surfaceDeleted "main"] := by
  have h := c5_process_json_salvages A2uiMessageProcessor.new
    (.obj [("beginRendering", .obj [("surfaceId", .str "main"),
      ("root", .str "root")])])
    (.str "bad")
    (.obj [("deleteSurface", .obj [("surfaceId", .str "main")])])
    (.beginRendering { surfaceId := "main", root := "root", styles := none })
    (.deleteSurface { surfaceId := "main" })
    rfl rfl rfl (Or.inl fun ua => by simp)
  exact h.1

/-! ## SSE lemmas and C8 -/

theorem colon_head_of_startsWith (line : String)
    (h : strStartsWith line ":" = true) : ∃ cs, line.data = ':' :: cs := by
  unfold strStartsWith at h
  have hcolon : (":").data = [':'] := rfl
  rw [hcolon] at h
  cases hd : line.data with
  | nil =>
    rw [hd] at h
    simp [List.isPrefixOf] at h
  | cons c cs =>
    rw [hd] at h
    rw [List.isPrefixOf_cons₂] at h
    simp only [List.isPrefixOf_nil_left, Bool.and_true, beq_iff_eq] at h
    subst h
    exact ⟨cs, rfl⟩

/-- C8 (confirmed): the SSE line machine — `data:` lines buffer their
trimmed payload and emit nothing; a line starting with `:` emits a
`Comment` immediately; an empty line with a non-empty buffer emits one
`Data` event whose payload joins the buffered lines with `\n`; any other
non-empty line emits nothing; `flush` emits a final `Data` event exactly
when the buffer is non-empty. -/
theorem c8_sse_line_machine (st : SseParserState) (line : String) :
    (strStartsWith line "data:" = true →
      parseLine st line =
        ({ dataBuffer := st.dataBuffer ++
            [strTrim (String.mk (line.data.drop 5))] }, none)) ∧
    (strStartsWith line ":" = true →
      parseLine st line =
        (st, some (.comment (strTrim (String.mk (line.data.drop 1)))))) ∧
    (st.dataBuffer ≠ [] →
      parseLine st "" = ({ dataBuffer := [] },
        some (.data (joinLines st.dataBuffer)))) ∧
    (strStartsWith line "data:" = false → strStartsWith line ":" = false →
      line ≠ "" → parseLine st line = (st, none)) ∧
    (flush st = if st.dataBuffer.isEmpty then (st, none)
      else ({ dataBuffer := [] }, some (.data (joinLines st.dataBuffer)))) := by
  refine ⟨?_, ?_, ?_, ?_, rfl⟩
  · intro h
    simp [parseLine, h]
  · intro h
    obtain ⟨cs, hd⟩ := colon_head_of_startsWith line h
    have hdz : strStartsWith line "data:" = false := by
      unfold strStartsWith
      rw [hd]
      rfl
    simp [parseLine, hdz, h]
  · intro hne
    have hemp : st.dataBuffer.isEmpty = false := by
      cases hbuf : st.dataBuffer with
      | nil => exact absurd hbuf hne
      | cons a l => rfl
    simp only [parseLine,
      (show strStartsWith "" "data:" = false from rfl),
      (show strStartsWith "" ":" = false from rfl),
      Bool.false_eq_true, if_false, if_pos rfl, hemp, if_true]
  · intro h1 h2 h3
    simp [parseLine, h1, h2, h3]

/-- C8 witness: the concrete exchanges from the claim — one `data:` line
plus a blank line yields one `Data` event; two `data:` lines join with a
newline; `: ping` yields `Comment("ping")` immediately; other lines yield
nothing; `flush` emits the pending buffer. -/
theorem c8_witness :
    (parseLine { dataBuffer := [] } "data: \x7b\"x\":1\x7d" =
      ({ dataBuffer := ["\x7b\"x\":1\x7d"] }, none)) ∧
    (parseLine { dataBuffer := ["\x7b\"x\":1\x7d"] } "" =
      ({ dataBuffer := [] }, some (.data "\x7b\"x\":1\x7d"))) ∧
    (parseLine { dataBuffer := ["line1"] } "data: line2" =
      ({ dataBuffer := ["line1", "line2"] }, none)) ∧
    (joinLines ["line1", "line2"] = "line1\nline2") ∧
    (parseLine { dataBuffer := [] } ": ping" =
      ({ dataBuffer := [] }, some (.comment "ping"))) ∧
    (parseLine { dataBuffer := [] } "ignored" = ({ dataBuffer := [] }, none)) ∧
    (flush { dataBuffer := ["tail"] } =
      ({ dataBuffer := [] }, some (.data "tail"))) := by
  refine ⟨?_, ?_, ?_, rfl, ?_, ?_, ?_⟩
  · exact (c8_sse_line_machine { dataBuffer := [] } "data: \x7b\"x\":1\x7d").1 rfl
  · exact (c8_sse_line_machine { dataBuffer := ["\x7b\"x\":1\x7d"] } "").2.2.1
      (by simp)
  · exact (c8_sse_line_machine { dataBuffer := ["line1"] } "data: line2").1 rfl
  · exact (c8_sse_line_machine { dataBuffer := [] } ": ping").2.1 rfl
  · exact (c8_sse_line_machine { dataBuffer := [] } "ignored").2.2.2.1 rfl rfl
      (by decide)
  · exact (c8_sse_line_machine { dataBuffer := ["tail"] } "x").2.2.2.2

/-! ## JSON-repair lemmas (C6)

Step equations for the two character machines, their state scanner, and
length bounds, followed by the removal lemmas. -/

theorem scan_esc (inS : Bool) (c : Char) (cs : List Char) :
    scanStr inS true (c :: cs) = scanStr inS false cs := by
  simp [scanStr]

theorem scan_bs (cs : List Char) :
    scanStr true false ('\\' :: cs) = scanStr true true cs := by
  simp [scanStr]

theorem scan_q_in (cs : List Char) :
    scanStr true false ('"' :: cs) = scanStr false false cs := by
  simp [scanStr]

theorem scan_in (c : Char) (cs : List Char) (h1 : c ≠ '\\') (h2 : c ≠ '"') :
    scanStr true false (c :: cs) = scanStr true false cs := by
  simp [scanStr, h1, h2]

theorem scan_q_out (cs : List Char) :
    scanStr false false ('"' :: cs) = scanStr true false cs := by
  simp [scanStr]

theorem scan_out (c : Char) (cs : List Char) (h : c ≠ '"') :
    scanStr false false (c :: cs) = scanStr false false cs := by
  simp [scanStr, h]

theorem fixGo_cons_esc (inS : Bool) (c : Char) (cs : List Char) :
    fixGo inS true (c :: cs) = c :: fixGo inS false cs := by
  simp [fixGo]

theorem fixGo_cons_bs (cs : List Char) :
    fixGo true false ('\\' :: cs) = '\\' :: fixGo true true cs := by
  simp [fixGo]

theorem fixGo_cons_q_in (cs : List Char) :
    fixGo true false ('"' :: cs) = '"' :: fixGo false false cs := by
  simp [fixGo]

theorem fixGo_cons_in (c : Char) (cs : List Char) (h1 : c ≠ '\\')
    (h2 : c ≠ '"') : fixGo true false (c :: cs) = c :: fixGo true false cs := by
  simp [fixGo, h1, h2]

theorem fixGo_cons_q_out (cs : List Char) :
    fixGo false false ('"' :: cs) = '"' :: fixGo true false cs := by
  simp [fixGo]

theorem fixGo_cons_comma (cs : List Char) :
    fixGo false false (',' :: cs) =
      match cs.find? (fun t => !t.isWhitespace) with
      | some b => if b = ']' ∨ b = '}' then fixGo false false cs
                  else ',' :: fixGo false false cs
      | none => ',' :: fixGo false false cs := by
  simp +decide [fixGo]

theorem fixGo_cons_other (c : Char) (cs : List Char) (h2 : c ≠ '"')
    (h3 : c ≠ ',') : fixGo false false (c :: cs) = c :: fixGo false false cs := by
  simp [fixGo, h2, h3]

theorem strip_cons_esc (inS : Bool) (c : Char) (cs : List Char) :
    stripGo inS true (c :: cs) = c :: stripGo inS false cs := by
  simp [stripGo]

theorem strip_cons_bs (cs : List Char) :
    stripGo true false ('\\' :: cs) = '\\' :: stripGo true true cs := by
  simp [stripGo]

theorem strip_cons_q_in (cs : List Char) :
    stripGo true false ('"' :: cs) = '"' :: stripGo false false cs := by
  simp [stripGo]

theorem strip_cons_in (c : Char) (cs : List Char) (h1 : c ≠ '\\')
    (h2 : c ≠ '"') : stripGo true false (c :: cs) = c :: stripGo true false cs := by
  simp [stripGo, h1, h2]

theorem strip_cons_q_out (cs : List Char) :
    stripGo false false ('"' :: cs) = '"' :: stripGo true false cs := by
  simp [stripGo]

theorem strip_line (cs : List Char) (h : cs.head? = some '/') :
    stripGo false false ('/' :: cs) =
      stripGo false false (cs.dropWhile fun x => x != '\n') := by
  simp [stripGo, h]

theorem strip_block (cs : List Char) (h : cs.head? = some '*') :
    stripGo false false ('/' :: cs) =
      stripGo false false (skipBlock cs.tail) := by
  simp [stripGo, h]

theorem strip_push_out (c : Char) (cs : List Char) (h1 : c ≠ '"')
    (h2 : ¬(c = '/' ∧ cs.head? = some '/'))
    (h3 : ¬(c = '/' ∧ cs.head? = some '*')) :
    stripGo false false (c :: cs) = c :: stripGo false false cs := by
  simp [stripGo, h1, h2, h3]

theorem fixGo_length_le : ∀ (l : List Char) (inS esc : Bool),
    (fixGo inS esc l).length ≤ l.length
  | [], _, _ => Nat.le_refl _
  | c :: cs, inS, esc => by
    cases esc with
    | true =>
      rw [fixGo_cons_esc]
      simpa using fixGo_length_le cs inS false
    | false =>
      cases inS with
      | true =>
        by_cases h1 : c = '\\'
        · subst h1
          rw [fixGo_cons_bs]
          simpa using fixGo_length_le cs true true
        · by_cases h2 : c = '"'
          · subst h2
            rw [fixGo_cons_q_in]
            simpa using fixGo_length_le cs false false
          · rw [fixGo_cons_in c cs h1 h2]
            simpa using fixGo_length_le cs true false
      | false =>
        by_cases h2 : c = '"'
        · subst h2
          rw [fixGo_cons_q_out]
          simpa using fixGo_length_le cs true false
        · by_cases h3 : c = ','
          · subst h3
            rw [fixGo_cons_comma]
            rcases hf : cs.find? (fun t => !t.isWhitespace) with _ | b
            · simp only [hf]
              simpa using fixGo_length_le cs false false
            · simp only [hf]
              by_cases hb : b = ']' ∨ b = '}'
              · rw [if_pos hb]
                exact Nat.le_succ_of_le (fixGo_length_le cs false false)
              · rw [if_neg hb]
                simpa using fixGo_length_le cs false false
          · rw [fixGo_cons_other c cs h2 h3]
            simpa using fixGo_length_le cs false false

theorem stripGo_length_le : ∀ (l : List Char) (inS esc : Bool),
    (stripGo inS esc l).length ≤ l.length
  | [], _, _ => by simp [stripGo]
  | c :: cs, inS, esc => by
    cases esc with
    | true =>
      rw [strip_cons_esc]
      simpa using stripGo_length_le cs inS false
    | false =>
      cases inS with
      | true =>
        by_cases h1 : c = '\\'
        · subst h1
          rw [strip_cons_bs]
          simpa using stripGo_length_le cs true true
        · by_cases h2 : c = '"'
          · subst h2
            rw [strip_cons_q_in]
            simpa using stripGo_length_le cs false false
          · rw [strip_cons_in c cs h1 h2]
            simpa using stripGo_length_le cs true false
      | false =>
        by_cases h2 : c = '"'
        · subst h2
          rw [strip_cons_q_out]
          simpa using stripGo_length_le cs true false
        · by_cases hsl : c = '/' ∧ cs.head? = some '/'
          · obtain ⟨hc, hh⟩ := hsl
            subst hc
            rw [strip_line cs hh]
            calc (stripGo false false (cs.dropWhile fun x => x != '\n')).length
                ≤ (cs.dropWhile fun x => x != '\n').length :=
                  stripGo_length_le _ false false
              _ ≤ cs.length := dropWhile_length_le _ _
              _ ≤ cs.length + 1 := Nat.le_succ _
          · by_cases hsb : c = '/' ∧ cs.head? = some '*'
            · obtain ⟨hc, hh⟩ := hsb
              subst hc
              rw [strip_block cs hh]
              calc (stripGo false false (skipBlock cs.tail)).length
                  ≤ (skipBlock cs.tail).length := stripGo_length_le _ false false
                _ ≤ cs.length := skipBlock_tail_length_le cs
                _ ≤ cs.length + 1 := Nat.le_succ _
            · rw [strip_push_out c cs h2 hsl hsb]
              simpa using stripGo_length_le cs false false
termination_by l => l.length
decreasing_by
  all_goals simp_wf
  all_goals first
  | omega
  | (refine Nat.lt_of_le_of_lt (dropWhile_length_le _ _) ?_; omega)
  | (refine Nat.lt_of_le_of_lt (skipBlock_tail_length_le _) ?_; omega)

theorem dropWhile_append_all {p : Char → Bool} : ∀ (l t : List Char),
    (∀ c ∈ l, p c = true) → (l ++ t).dropWhile p = t.dropWhile p
  | [], t, _ => rfl
  | c :: l, t, h => by
    have hc := h c (List.mem_cons_self c l)
    simp only [List.cons_append, List.dropWhile, hc]
    exact dropWhile_append_all l t (fun x hx => h x (List.mem_cons_of_mem c hx))

theorem dropWhile_newline (rest : List Char) :
    (('\n' :: rest).dropWhile fun x => x != '\n') = '\n' :: rest := by
  simp [List.dropWhile]

theorem skipBlock_through : ∀ (cmt : List Char), hasStarSlash cmt = false →
    ∀ rest : List Char, skipBlock (cmt ++ '*' :: '/' :: rest) = rest
  | [], _, rest => by
    show skipBlock ('*' :: '/' :: rest) = rest
    rw [skipBlock, if_pos ⟨rfl, rfl⟩]
  | [c], _, rest => by
    show skipBlock (c :: '*' :: '/' :: rest) = rest
    rw [skipBlock, if_neg (fun hh => by exact absurd hh.2 (by decide))]
    exact skipBlock_through [] rfl rest
  | c :: d :: cmt2, h, rest => by
    rw [hasStarSlash] at h
    by_cases hc : c = '*' ∧ d = '/'
    · rw [if_pos hc] at h
      exact absurd h (by simp)
    · rw [if_neg hc] at h
      show skipBlock (c :: d :: (cmt2 ++ '*' :: '/' :: rest)) = rest
      rw [skipBlock, if_neg hc]
      exact skipBlock_through (d :: cmt2) h rest

theorem find_nonws_append (w : List Char) (hw : ∀ c ∈ w, c.isWhitespace = true)
    (b : Char) (hb : b.isWhitespace = false) (rest : List Char) :
    (w ++ b :: rest).find? (fun t => !t.isWhitespace) = some b := by
  rw [List.find?_append]
  have hw0 : w.find? (fun t => !t.isWhitespace) = none :=
    List.find?_eq_none.mpr (fun x hx => by simp [hw x hx])
  rw [hw0, Option.none_or]
  exact List.find?_cons_of_pos _ (by simp [hb])

/-- The comma-removal lemma: when the clean text is fixed by
`fix_trailing_commas` and the scan of `u` ends outside a string, the text
with one extra comma before whitespace and a closer repairs to the clean
text. -/
theorem fixGo_comma (w rest : List Char) (b : Char)
    (hw : ∀ c ∈ w, c.isWhitespace = true) (hb : b = ']' ∨ b = '}') :
    ∀ (u : List Char) (inS esc : Bool),
      scanStr inS esc u = (false, false) →
      fixGo inS esc (u ++ (w ++ b :: rest)) = u ++ (w ++ b :: rest) →
      fixGo inS esc (u ++ (',' :: (w ++ b :: rest))) = u ++ (w ++ b :: rest)
  | [], inS, esc, hscan, hclean => by
    have hbw : b.isWhitespace = false := by
      rcases hb with hb | hb <;> subst hb <;> decide
    simp only [scanStr, Prod.mk.injEq] at hscan
    obtain ⟨h1, h2⟩ := hscan
    subst h1
    subst h2
    simp only [List.nil_append] at hclean ⊢
    rw [fixGo_cons_comma]
    simp only [find_nonws_append w hw b hbw rest]
    rw [if_pos hb]
    exact hclean
  | c :: u2, inS, esc, hscan, hclean => by
    simp only [List.cons_append] at hclean ⊢
    cases esc with
    | true =>
      rw [scan_esc] at hscan
      rw [fixGo_cons_esc] at hclean ⊢
      injection hclean with _ hcl2
      rw [fixGo_comma w rest b hw hb u2 inS false hscan hcl2]
    | false =>
      cases inS with
      | true =>
        by_cases h1 : c = '\\'
        · subst h1
          rw [scan_bs] at hscan
          rw [fixGo_cons_bs] at hclean ⊢
          injection hclean with _ hcl2
          rw [fixGo_comma w rest b hw hb u2 true true hscan hcl2]
        · by_cases hq : c = '"'
          · subst hq
            rw [scan_q_in] at hscan
            rw [fixGo_cons_q_in] at hclean ⊢
            injection hclean with _ hcl2
            rw [fixGo_comma w rest b hw hb u2 false false hscan hcl2]
          · rw [scan_in c u2 h1 hq] at hscan
            rw [fixGo_cons_in c _ h1 hq] at hclean ⊢
            injection hclean with _ hcl2
            rw [fixGo_comma w rest b hw hb u2 true false hscan hcl2]
      | false =>
        by_cases hq : c = '"'
        · subst hq
          rw [scan_q_out] at hscan
          rw [fixGo_cons_q_out] at hclean ⊢
          injection hclean with _ hcl2
          rw [fixGo_comma w rest b hw hb u2 true false hscan hcl2]
        · rw [scan_out c u2 hq] at hscan
          by_cases hcm : c = ','
          · subst hcm
            rw [fixGo_cons_comma] at hclean ⊢
            rcases hfc : (u2 ++ (w ++ b :: rest)).find?
                (fun t => !t.isWhitespace) with _ | x
            · exfalso
              have hbw : b.isWhitespace = false := by
                rcases hb with hb | hb <;> subst hb <;> decide
              have hmem : b ∈ u2 ++ (w ++ b :: rest) := by simp
              have := List.find?_eq_none.mp hfc b hmem
              simp [hbw] at this
            · simp only [hfc] at hclean
              by_cases hx : x = ']' ∨ x = '}'
              · rw [if_pos hx] at hclean
                exfalso
                have hlen := congrArg List.length hclean
                simp only [List.length_cons] at hlen
                have hle := fixGo_length_le (u2 ++ (w ++ b :: rest)) false false
                omega
              · rw [if_neg hx] at hclean
                injection hclean with _ hcl2
                rcases hfu : u2.find? (fun t => !t.isWhitespace) with _ | y
                · exfalso
                  have hbw : b.isWhitespace = false := by
                    rcases hb with hb | hb <;> subst hb <;> decide
                  have hfind2 : (u2 ++ (w ++ b :: rest)).find?
                      (fun t => !t.isWhitespace) = some b := by
                    rw [List.find?_append, hfu, Option.none_or,
                      find_nonws_append w hw b hbw rest]
                  rw [hfind2] at hfc
                  injection hfc with hxb
                  exact hx (hxb ▸ hb)
                · have hcf2 : (u2 ++ (w ++ b :: rest)).find?
                      (fun t => !t.isWhitespace) = some y := by
                    rw [List.find?_append, hfu, Option.or_some]
                  rw [hcf2] at hfc
                  injection hfc with hxy
                  have hdf : (u2 ++ (',' :: (w ++ b :: rest))).find?
                      (fun t => !t.isWhitespace) = some y := by
                    rw [List.find?_append, hfu, Option.or_some]
                  simp only [hdf]
                  rw [if_neg (by rw [← hxy] at hx; exact hx)]
                  rw [fixGo_comma w rest b hw hb u2 false false hscan hcl2]
          · rw [fixGo_cons_other c _ hq hcm] at hclean ⊢
            injection hclean with _ hcl2
            rw [fixGo_comma w rest b hw hb u2 false false hscan hcl2]

/-- Generic tail-replacement for `strip_json_comments`: a tail whose
strip agrees with the strip of a clean tail can be substituted after any
prefix `u` that scans to the outside state, does not end in `/`, and is
kept verbatim on the clean input. -/
theorem stripGo_congr_tail (tail1 tail2 : List Char)
    (hstep : stripGo false false tail1 = stripGo false false tail2) :
    ∀ (u : List Char) (inS esc : Bool),
      scanStr inS esc u = (false, false) →
      (u = [] ∨ u.getLast? ≠ some '/') →
      stripGo inS esc (u ++ tail2) = u ++ tail2 →
      stripGo inS esc (u ++ tail1) = u ++ tail2
  | [], inS, esc, hscan, _, hclean => by
    simp only [scanStr, Prod.mk.injEq] at hscan
    obtain ⟨h1, h2⟩ := hscan
    subst h1
    subst h2
    simp only [List.nil_append] at hclean ⊢
    rw [hstep]
    exact hclean
  | c :: u2, inS, esc, hscan, hlast, hclean => by
    have hlast2 : u2 = [] ∨ u2.getLast? ≠ some '/' := by
      rcases hlast with h0 | h0
      · exact absurd h0 (List.cons_ne_nil c u2)
      · cases u2 with
        | nil => exact Or.inl rfl
        | cons d u3 =>
          right
          rw [List.getLast?_cons_cons] at h0
          exact h0
    have hlastc : u2 = [] → c ≠ '/' := by
      intro h0 hc
      rcases hlast with hl | hl
      · exact List.cons_ne_nil c u2 hl
      · subst h0
        subst hc
        exact hl rfl
    simp only [List.cons_append] at hclean ⊢
    cases esc with
    | true =>
      rw [scan_esc] at hscan
      rw [strip_cons_esc] at hclean ⊢
      injection hclean with _ hcl2
      rw [stripGo_congr_tail tail1 tail2 hstep u2 inS false hscan hlast2 hcl2]
    | false =>
      cases inS with
      | true =>
        by_cases h1 : c = '\\'
        · subst h1
          rw [scan_bs] at hscan
          rw [strip_cons_bs] at hclean ⊢
          injection hclean with _ hcl2
          rw [stripGo_congr_tail tail1 tail2 hstep u2 true true hscan
            hlast2 hcl2]
        · by_cases hq : c = '"'
          · subst hq
            rw [scan_q_in] at hscan
            rw [strip_cons_q_in] at hclean ⊢
            injection hclean with _ hcl2
            rw [stripGo_congr_tail tail1 tail2 hstep u2 false false hscan
              hlast2 hcl2]
          · rw [scan_in c u2 h1 hq] at hscan
            rw [strip_cons_in c _ h1 hq] at hclean ⊢
            injection hclean with _ hcl2
            rw [stripGo_congr_tail tail1 tail2 hstep u2 true false hscan
              hlast2 hcl2]
      | false =>
        by_cases hq : c = '"'
        · subst hq
          rw [scan_q_out] at hscan
          rw [strip_cons_q_out] at hclean ⊢
          injection hclean with _ hcl2
          rw [stripGo_congr_tail tail1 tail2 hstep u2 true false hscan
            hlast2 hcl2]
        · rw [scan_out c u2 hq] at hscan
          by_cases hc : c = '/'
          · subst hc
            cases u2 with
            | nil => exact absurd rfl (hlastc rfl)
            | cons d u3 =>
              simp only [List.cons_append] at hclean ⊢
              by_cases hd1 : d = '/'
              · exfalso
                subst hd1
                rw [strip_line ('/' :: (u3 ++ tail2)) rfl] at hclean
                have hlen := congrArg List.length hclean
                have ha := stripGo_length_le
                  (('/' :: (u3 ++ tail2)).dropWhile fun x => x != '\n')
                  false false
                have hbnd := dropWhile_length_le (fun x : Char => x != '\n')
                  ('/' :: (u3 ++ tail2))
                simp only [List.length_cons] at hlen ha hbnd
                omega
              · by_cases hd2 : d = '*'
                · exfalso
                  subst hd2
                  rw [strip_block ('*' :: (u3 ++ tail2)) rfl] at hclean
                  have hlen := congrArg List.length hclean
                  have ha := stripGo_length_le
                    (skipBlock (List.tail ('*' :: (u3 ++ tail2)))) false false
                  have hbnd := skipBlock_tail_length_le ('*' :: (u3 ++ tail2))
                  simp only [List.length_cons] at hlen ha hbnd
                  omega
                · have hp1 : ¬('/' = '/' ∧ (d :: (u3 ++ tail1)).head? =
                      some '/') := by
                    rintro ⟨_, hh⟩
                    exact hd1 (Option.some.inj hh)
                  have hp2 : ¬('/' = '/' ∧ (d :: (u3 ++ tail1)).head? =
                      some '*') := by
                    rintro ⟨_, hh⟩
                    exact hd2 (Option.some.inj hh)
                  have hp3 : ¬('/' = '/' ∧ (d :: (u3 ++ tail2)).head? =
                      some '/') := by
                    rintro ⟨_, hh⟩
                    exact hd1 (Option.some.inj hh)
                  have hp4 : ¬('/' = '/' ∧ (d :: (u3 ++ tail2)).head? =
                      some '*') := by
                    rintro ⟨_, hh⟩
                    exact hd2 (Option.some.inj hh)
                  rw [strip_push_out _ _ (by decide) hp3 hp4] at hclean
                  rw [strip_push_out _ _ (by decide) hp1 hp2]
                  injection hclean with _ hcl2
                  have hscan2 : scanStr false false (d :: u3) = (false, false) :=
                    hscan
                  have hrec := stripGo_congr_tail tail1 tail2 hstep (d :: u3)
                    false false hscan2 hlast2 hcl2
                  simp only [List.cons_append] at hrec
                  rw [hrec]
          · rw [strip_push_out c _ hq (fun hh => hc hh.1)
              (fun hh => hc hh.1)] at hclean
            rw [strip_push_out c _ hq (fun hh => hc hh.1)
              (fun hh => hc hh.1)]
            injection hclean with _ hcl2
            rw [stripGo_congr_tail tail1 tail2 hstep u2 false false hscan
              hlast2 hcl2]

/-- In-string pass-through: string content (no quote, no backslash) is
copied verbatim by `strip_json_comments`, so a `//` inside a string is
never treated as a comment. -/
theorem stripGo_in_string : ∀ (w : List Char), '"' ∉ w → '\\' ∉ w →
    ∀ rest : List Char,
      stripGo true false (w ++ '"' :: rest) =
        w ++ '"' :: stripGo false false rest
  | [], _, _, rest => by
    simp only [List.nil_append]
    exact strip_cons_q_in rest
  | c :: w2, hq, hbs, rest => by
    have hcq : c ≠ '"' := fun h => hq (h ▸ List.mem_cons_self c w2)
    have hcb : c ≠ '\\' := fun h => hbs (h ▸ List.mem_cons_self c w2)
    simp only [List.cons_append]
    rw [strip_cons_in c _ hcb hcq]
    rw [stripGo_in_string w2 (fun h => hq (List.mem_cons_of_mem c h))
      (fun h => hbs (List.mem_cons_of_mem c h)) rest]

/-- C6: the first two repair steps are equivalence-preserving.  (1) An
input that differs from a comment-free text only by one extra comma
before whitespace and a closing bracket or brace repairs (steps 1-2) to
exactly the comma-free text, which is itself a fixed point of the
repair.  (2) A `//` line comment inserted outside a string literal is
removed by `strip_json_comments`, and the full repair of the commented
text equals the repair of the comment-stripped text.  (3) Likewise for a
`/* ... */` block comment.  (4) A string literal free of quotes and
backslashes — in particular one containing `//` — passes through
`strip_json_comments` verbatim: a `//` inside a string is never treated
as a comment. -/
theorem c6_repair_steps :
    (∀ (u w rest : List Char) (b : Char),
        scanStr false false u = (false, false) →
        (∀ c ∈ w, c.isWhitespace = true) →
        (b = ']' ∨ b = '}') →
        stripGo false false (u ++ (',' :: (w ++ b :: rest))) =
          u ++ (',' :: (w ++ b :: rest)) →
        stripGo false false (u ++ (w ++ b :: rest)) = u ++ (w ++ b :: rest) →
        fixGo false false (u ++ (w ++ b :: rest)) = u ++ (w ++ b :: rest) →
        repairStep12 (String.mk (u ++ (',' :: (w ++ b :: rest)))) =
            String.mk (u ++ (w ++ b :: rest)) ∧
          repairStep12 (String.mk (u ++ (w ++ b :: rest))) =
            String.mk (u ++ (w ++ b :: rest))) ∧
    (∀ (u cmt rest : List Char),
        scanStr false false u = (false, false) →
        (u = [] ∨ u.getLast? ≠ some '/') →
        '\n' ∉ cmt →
        stripGo false false (u ++ '\n' :: rest) = u ++ '\n' :: rest →
        stripJsonComments
            (String.mk (u ++ ('/' :: '/' :: (cmt ++ '\n' :: rest)))) =
            String.mk (u ++ '\n' :: rest) ∧
          repairStep12
              (String.mk (u ++ ('/' :: '/' :: (cmt ++ '\n' :: rest)))) =
            repairStep12 (String.mk (u ++ '\n' :: rest))) ∧
    (∀ (u cmt rest : List Char),
        scanStr false false u = (false, false) →
        (u = [] ∨ u.getLast? ≠ some '/') →
        hasStarSlash cmt = false →
        stripGo false false (u ++ rest) = u ++ rest →
        stripJsonComments
            (String.mk (u ++ ('/' :: '*' :: (cmt ++ '*' :: '/' :: rest)))) =
            String.mk (u ++ rest) ∧
          repairStep12
              (String.mk (u ++ ('/' :: '*' :: (cmt ++ '*' :: '/' :: rest)))) =
            repairStep12 (String.mk (u ++ rest))) ∧
    (∀ (w rest : List Char), '"' ∉ w → '\\' ∉ w →
        stripJsonComments (String.mk ('"' :: (w ++ '"' :: rest))) =
          String.mk ('"' :: (w ++ '"' :: stripGo false false rest))) := by
  refine ⟨?_, ?_, ?_, ?_⟩
  · intro u w rest b hscan hw hb hsd hsc hfcl
    have hfix := fixGo_comma w rest b hw hb u false false hscan hfcl
    constructor
    · show String.mk (fixGo false false
          (stripGo false false (u ++ (',' :: (w ++ b :: rest))))) =
        String.mk (u ++ (w ++ b :: rest))
      rw [hsd, hfix]
    · show String.mk (fixGo false false
          (stripGo false false (u ++ (w ++ b :: rest)))) =
        String.mk (u ++ (w ++ b :: rest))
      rw [hsc, hfcl]
  · intro u cmt rest hscan hlast hcmt hsc
    have hall : ∀ c ∈ '/' :: cmt, (c != '\n') = true := by
      intro c hc
      rcases List.mem_cons.mp hc with hc | hc
      · subst hc
        decide
      · simp only [bne_iff_ne, ne_eq]
        intro hh
        exact hcmt (hh ▸ hc)
    have hstep : stripGo false false ('/' :: '/' :: (cmt ++ '\n' :: rest)) =
        stripGo false false ('\n' :: rest) := by
      rw [strip_line ('/' :: (cmt ++ '\n' :: rest)) rfl]
      have h1 := dropWhile_append_all ('/' :: cmt) ('\n' :: rest) hall
      simp only [List.cons_append] at h1
      rw [h1, dropWhile_newline]
    have hmain := stripGo_congr_tail _ _ hstep u false false hscan hlast hsc
    have hstrip : stripJsonComments
        (String.mk (u ++ ('/' :: '/' :: (cmt ++ '\n' :: rest)))) =
        String.mk (u ++ '\n' :: rest) := congrArg String.mk hmain
    refine ⟨hstrip, ?_⟩
    have hcl : stripJsonComments (String.mk (u ++ '\n' :: rest)) =
        String.mk (u ++ '\n' :: rest) := congrArg String.mk hsc
    show fixTrailingCommas (stripJsonComments
        (String.mk (u ++ ('/' :: '/' :: (cmt ++ '\n' :: rest))))) =
      fixTrailingCommas (stripJsonComments (String.mk (u ++ '\n' :: rest)))
    rw [hstrip, hcl]
  · intro u cmt rest hscan hlast hss hsc
    have hstep : stripGo false false
        ('/' :: '*' :: (cmt ++ '*' :: '/' :: rest)) =
        stripGo false false rest := by
      rw [strip_block ('*' :: (cmt ++ '*' :: '/' :: rest)) rfl]
      show stripGo false false (skipBlock (cmt ++ '*' :: '/' :: rest)) =
        stripGo false false rest
      rw [skipBlock_through cmt hss rest]
    have hmain := stripGo_congr_tail _ _ hstep u false false hscan hlast hsc
    have hstrip : stripJsonComments
        (String.mk (u ++ ('/' :: '*' :: (cmt ++ '*' :: '/' :: rest)))) =
        String.mk (u ++ rest) := congrArg String.mk hmain
    refine ⟨hstrip, ?_⟩
    have hcl : stripJsonComments (String.mk (u ++ rest)) =
        String.mk (u ++ rest) := congrArg String.mk hsc
    show fixTrailingCommas (stripJsonComments
        (String.mk (u ++ ('/' :: '*' :: (cmt ++ '*' :: '/' :: rest))))) =
      fixTrailingCommas (stripJsonComments (String.mk (u ++ rest)))
    rw [hstrip, hcl]
  · intro w rest hq hbs
    show String.mk (stripGo false false ('"' :: (w ++ '"' :: rest))) =
      String.mk ('"' :: (w ++ '"' :: stripGo false false rest))
    rw [strip_cons_q_out, stripGo_in_string w hq hbs rest]

theorem c6_witness :
    (repairStep12 (String.mk (['[', '1'] ++ (',' :: ([' '] ++ ']' :: [])))) =
        String.mk (['[', '1'] ++ ([' '] ++ ']' :: [])) ∧
      repairStep12 (String.mk (['[', '1'] ++ ([' '] ++ ']' :: []))) =
        String.mk (['[', '1'] ++ ([' '] ++ ']' :: []))) ∧
    stripJsonComments
        (String.mk (['['] ++ ('/' :: '/' :: (['c'] ++ '\n' :: ['1', ']'])))) =
      String.mk (['['] ++ '\n' :: ['1', ']']) ∧
    stripJsonComments
        (String.mk (['['] ++
          ('/' :: '*' :: (['c'] ++ '*' :: '/' :: ['1', ']'])))) =
      String.mk (['['] ++ ['1', ']']) ∧
    stripJsonComments (String.mk ('"' :: (['/', '/'] ++ '"' :: ['x']))) =
      String.mk ('"' :: (['/', '/'] ++ '"' :: ['x'])) := by
  have h1 := c6_repair_steps.1 ['[', '1'] [' '] [] ']' (by decide) (by decide)
    (by decide) (by simp +decide [stripGo]) (by simp +decide [stripGo])
    (by decide)
  have h2 := c6_repair_steps.2.1 ['['] ['c'] ['1', ']'] (by decide)
    (Or.inr (by decide)) (by decide) (by simp +decide [stripGo])
  have h3 := c6_repair_steps.2.2.1 ['['] ['c'] ['1', ']'] (by decide)
    (Or.inr (by decide)) (by decide) (by simp +decide [stripGo])
  have h4 := c6_repair_steps.2.2.2 ['/', '/'] ['x'] (by decide) (by decide)
  have hx : stripGo false false ['x'] = ['x'] := by simp +decide [stripGo]
  rw [hx] at h4
  exact ⟨h1, h2.1, h3.1, h4⟩

end A2ui
